import Mathlib

/-!
Verification of the Bloomora session ledger, progression engine and sync
reconciler (`src/bloomora/app.js`) against its natural-language specification.

The JavaScript source is shallowly embedded: numbers that can be fractional
(durations passed to `saveSession`, ambient volumes) are rationals, integral
millisecond timestamps and second counters are integers, JS `null`/`undefined`
is `Option.none`, and JS truthiness of strings/numbers ( `""` and `0` are
falsy) is modelled explicitly by the `jsOr*` helpers.  Stateful code is state
passing: each operation maps the state aggregate to a new one, and the UI /
storage side effects out of the spec's scope are dropped.
-/

namespace Bloomora

/-- JS `x || d` for a string `x`: the empty string is falsy. -/
def jsOrStr (s d : String) : String := if s = "" then d else s

/-- JS `x || d` for a possibly-null string `x` (`none` models `null`/`undefined`). -/
def jsOrOptStr (x : Option String) (d : String) : String :=
  match x with
  | some s => if s = "" then d else s
  | none => d

/-- JS `x || d` for a possibly-null number `x`: `null`, `undefined` and `0` are falsy. -/
def jsOrNum (x : Option Int) (d : Int) : Int :=
  match x with
  | some v => if v = 0 then d else v
  | none => d

/-- JS `Math.round`: round half toward positive infinity, `⌊q + 1/2⌋`. -/
def jsRound (q : ℚ) : Int := Int.floor (q + 1/2)

/-- The source's `clamp(n, a, b) = Math.max(a, Math.min(b, n))` on rationals. -/
def clamp (n a b : ℚ) : ℚ := max a (min b n)

/-- The source's `clamp01`. -/
def clamp01 (n : ℚ) : ℚ := clamp n 0 1

/-- Integer variant of `clamp` for integer-valued fields. -/
def clampZ (n a b : Int) : Int := max a (min b n)

/-- The whitespace class of JS `String.prototype.trim`. -/
def wsChar (c : Char) : Bool := c.isWhitespace

/-- JS `s.trim()`: drop whitespace from both ends. -/
def jsTrim (s : String) : String :=
  String.mk ((s.data.dropWhile wsChar).rdropWhile wsChar)

/-- JS `s.slice(0, n)` for `n ≥ 0`. -/
def jsSlice (s : String) (n : Nat) : String := String.mk (s.data.take n)

/-- One completed study interval, the `Session` record of the data model. -/
structure Session where
  id : String
  clientId : String
  startTs : Int
  endTs : Int
  durationSec : Int
  method : String
  rewardMode : String
  label : String
deriving Repr, DecidableEq

/-- The `state.island` fragment. -/
structure Island where
  xpSec : Int
deriving Repr, DecidableEq

/-- The `state.garden` fragment. -/
structure Garden where
  treeType : String
  growthSec : Int
  harvestedOnThisTree : Int
deriving Repr, DecidableEq

/-- A label as stored locally in `state.labels.items`. -/
structure LocalLabel where
  id : String
  name : String
  color : String
  favorite : Bool
  createdTs : Int
deriving Repr, DecidableEq

/-- The `state.profile` fields touched by the sync reconciler. -/
structure Profile where
  name : String
  weeklyGoalHours : Int
  theme : String
  stopwatchCapOn : Bool
  stopwatchCapHours : Int
  ambientType : String
  ambientVolume : ℚ
deriving Repr, DecidableEq

/-- The in-memory state aggregate (`state` in `app.js`), restricted to the
fields the session ledger, progression engine and sync reconciler read or
write.  `worldView` is `state.ui.worldView`; `labels` is `state.labels.items`;
`fruitCollection` is the fruit-kind-to-count object kept as an association
list in object-key order. -/
structure AppState where
  profile : Profile
  worldView : String
  sessions : List Session
  island : Island
  garden : Garden
  fruitCollection : List (String × Int)
  labels : List LocalLabel
deriving Repr, DecidableEq

/-- One stage row of the `TREE_STAGES` table. -/
structure TreeStage where
  id : String
  name : String
  minSec : Int
deriving Repr, DecidableEq

/-- The `TREE_STAGES` ordered stage table from the source. -/
def TREE_STAGES : List TreeStage :=
  [ ⟨"seed", "Seed", 0⟩,
    ⟨"sprout", "Sprout", 10 * 60⟩,
    ⟨"plant", "Plant", 30 * 60⟩,
    ⟨"sapling", "Sapling", 60 * 60⟩,
    ⟨"tree", "Tree", 2 * 60 * 60⟩ ]

/-- The `FRUIT_RATE_SEC` constant: one fruit per 30 minutes after Tree stage. -/
def FRUIT_RATE_SEC : Int := 30 * 60

/-- The mature ("tree") stage threshold, looked up from the stage table as in
`computeFruitsReady` (`TREE_STAGES.find(s => s.id === 'tree').minSec`). -/
def treeMinSec : Int :=
  match TREE_STAGES.find? (fun s => s.id == "tree") with
  | some s => s.minSec
  | none => 0

/-- JS object read `Number(collection[k]) || 0` on the fruit collection. -/
def getFruit (c : List (String × Int)) (k : String) : Int :=
  match c.find? (fun p => p.1 == k) with
  | some p => p.2
  | none => 0

/-- JS object write `collection[k] = v`: replaces the value in place when the
key exists, otherwise appends the new key. -/
def setFruit (c : List (String × Int)) (k : String) (v : Int) : List (String × Int) :=
  if c.any (fun p => p.1 == k) then
    c.map (fun p => if p.1 == k then (k, v) else p)
  else c ++ [(k, v)]

/-- The source's `computeFruitsReady(garden)`:  0 below the mature threshold,
otherwise `max(0, floor((growth - treeMin) / FRUIT_RATE_SEC) - harvested)`. -/
def computeFruitsReady (g : Garden) : Int :=
  if g.growthSec < treeMinSec then 0
  else
    let total := (g.growthSec - treeMinSec).fdiv FRUIT_RATE_SEC
    max 0 (total - g.harvestedOnThisTree)

/-- The source's `normalizeRewardMode`. -/
def normalizeRewardMode (mode : String) : String :=
  if mode = "garden" then "garden" else "island"

/-- Arguments of `saveSession` as the call site provides them: `rewardMode`
and `label` may be absent (modelled as `""`, which is what JS `||` treats as
missing), `startedAt`/`endedAt` are optional millisecond timestamps. -/
structure SaveArgs where
  durationSec : ℚ
  method : String
  rewardMode : String
  label : String
  startedAt : Option Int
  endedAt : Option Int
deriving Repr, DecidableEq

/-- The source's `saveSession`.  `newId` stands for the freshly generated
random id and `nowMs` for `Date.now()`.  Returns the JS boolean result
together with the updated state; persistence (`saveState`) is the returned
state itself. -/
def saveSession (args : SaveArgs) (newId : String) (nowMs : Int) (st : AppState) :
    Bool × AppState :=
  let dur := max 0 (jsRound args.durationSec)
  if dur < 60 then (false, st)
  else
    let endTs := jsOrNum args.endedAt nowMs
    let startTs := jsOrNum args.startedAt (endTs - dur * 1000)
    let session : Session :=
      { id := newId
        clientId := newId
        startTs := startTs
        endTs := endTs
        durationSec := dur
        method := args.method
        rewardMode := normalizeRewardMode (jsOrStr args.rewardMode (jsOrStr st.worldView "island"))
        label := jsSlice (jsTrim args.label) 24 }
    (true,
      { st with
        sessions := session :: st.sessions
        island := { xpSec := st.island.xpSec + dur }
        garden := { st.garden with growthSec := st.garden.growthSec + dur } })

/-- Removes the first session matching the predicate, returning it and the
remaining list (the `findIndex` + `splice(idx, 1)` pair in the source). -/
def removeFirst (p : Session → Bool) : List Session → Option Session × List Session
  | [] => (none, [])
  | s :: rest =>
    if p s then (some s, rest)
    else
      let r := removeFirst p rest
      (r.1, s :: r.2)

/-- The source's `deleteSessionById`.  The third component models the
fire-and-forget remote delete request (`sbDeleteSession`'s argument), `none`
when no remote delete is issued. -/
def deleteSessionById (sessionId : String) (st : AppState) :
    Bool × AppState × Option String :=
  if sessionId = "" then (false, st, none)
  else
    match removeFirst (fun s => s.id == sessionId) st.sessions with
    | (none, _) => (false, st, none)
    | (some removed, rest) =>
      let dur := removed.durationSec
      (true,
        { st with
          sessions := rest
          island := { xpSec := max 0 (st.island.xpSec - dur) }
          garden := { st.garden with growthSec := max 0 (st.garden.growthSec - dur) } },
        some (jsOrStr removed.clientId (jsOrStr removed.id sessionId)))

/-- The default (all-zero) fruit collection object. -/
def defaultFruitCollection : List (String × Int) :=
  [("Apple", 0), ("Orange", 0), ("Cherry", 0), ("Mango", 0), ("Peach", 0)]

/-- The source's `resetStats`: clears the ledger, zeroes both progression
counters and the harvested counter, and resets the fruit collection. -/
def resetStats (st : AppState) : AppState :=
  { st with
    sessions := []
    island := { xpSec := 0 }
    garden := { st.garden with growthSec := 0, harvestedOnThisTree := 0 }
    fruitCollection := defaultFruitCollection }

/-- The source's `harvestFruits`: a no-op when no fruit is ready, otherwise
adds the ready count to the collection under the current tree type and to
`harvestedOnThisTree`. -/
def harvestFruits (st : AppState) : AppState :=
  let ready := computeFruitsReady st.garden
  if ready ≤ 0 then st
  else
    { st with
      fruitCollection :=
        setFruit st.fruitCollection st.garden.treeType
          (getFruit st.fruitCollection st.garden.treeType + ready)
      garden := { st.garden with
        harvestedOnThisTree := st.garden.harvestedOnThisTree + ready } }

/-- One user-level ledger operation, for stating properties of operation
sequences. -/
inductive Op where
  | record (args : SaveArgs) (newId : String) (nowMs : Int)
  | delete (sessionId : String)
  | reset
deriving Repr

/-- Applies one operation to the state, dropping the returned status. -/
def applyOp (st : AppState) : Op → AppState
  | .record args newId nowMs => (saveSession args newId nowMs st).2
  | .delete sessionId => (deleteSessionById sessionId st).2.1
  | .reset => resetStats st

/-- The default state restricted to the modelled fields (`defaultState()`). -/
def defaultAppState : AppState :=
  { profile :=
      { name := "Student", weeklyGoalHours := 10, theme := "midnight",
        stopwatchCapOn := true, stopwatchCapHours := 6,
        ambientType := "off", ambientVolume := 2/5 }
    worldView := "island"
    sessions := []
    island := { xpSec := 0 }
    garden := { treeType := "Apple", growthSec := 0, harvestedOnThisTree := 0 }
    fruitCollection := defaultFruitCollection
    labels := [] }

/-- Runs a sequence of ledger operations from the default state. -/
def runOps (ops : List Op) : AppState := ops.foldl applyOp defaultAppState

/-- A remote `profiles` row as the pull phase receives it.  `none` models a
SQL `null` (or an absent column); rationals model `double precision`. -/
structure ProfileRow where
  display_name : Option String
  weekly_goal_hours : Option Int
  theme : Option String
  stopwatch_cap_on : Option Bool
  stopwatch_cap_hours : Option Int
  session_ambient_type : Option String
  session_ambient_volume : Option ℚ
  island_xp_sec : Option Int
  garden_growth_sec : Option Int
  garden_tree_type : Option String
  garden_harvested_on_tree : Option Int
  fruit_collection : Option (List (String × Int))
deriving Repr, DecidableEq

/-- A remote `labels` row: `row_id` is the server-generated `id` column,
`local_id` the client identifier column (nullable on old rows), `created_ts`
the parsed millisecond timestamp (`none` when null or unparsable). -/
structure LabelRow where
  local_id : Option String
  row_id : String
  name : String
  color : String
  favorite : Option Bool
  created_ts : Option Int
deriving Repr, DecidableEq

/-- A remote `sessions` row, timestamps already parsed to milliseconds
(`none` models SQL null or an unparsable timestamp string). -/
structure SessionRow where
  client_id : String
  started_at : Option Int
  ended_at : Option Int
  duration_sec : Int
  label_name : Option String
  source : Option String
  reward_mode : Option String
deriving Repr, DecidableEq

/-- JS truthiness of a possibly-null number (`0`, `null` and `NaN` are falsy;
an unparsable `Date.parse` result is modelled as `none`). -/
def numTruthy (x : Option Int) : Bool :=
  match x with
  | some t => t != 0
  | none => false

/-- The numeric value of a possibly-null number, `0` when null. -/
def numVal (x : Option Int) : Int := x.getD 0

/-- The source's `rowToLocalSession`, with `nowMs` for `now()` and
`worldView` for `state.ui.worldView`. -/
def rowToLocalSession (nowMs : Int) (worldView : String) (r : SessionRow) : Session :=
  { id := r.client_id
    clientId := r.client_id
    startTs :=
      if numTruthy r.started_at then numVal r.started_at
      else if numTruthy r.ended_at then numVal r.ended_at - r.duration_sec * 1000
      else nowMs
    endTs :=
      if numTruthy r.ended_at then numVal r.ended_at
      else if numTruthy r.started_at then numVal r.started_at + r.duration_sec * 1000
      else nowMs
    durationSec := r.duration_sec
    method := jsOrOptStr r.source "manual"
    rewardMode := jsOrOptStr r.reward_mode (jsOrStr worldView "island")
    label := jsOrOptStr r.label_name "" }

/-- The source's `rowToLocalLabel` (`id: r.local_id || r.id`). -/
def rowToLocalLabel (nowMs : Int) (r : LabelRow) : LocalLabel :=
  { id := jsOrOptStr r.local_id r.row_id
    name := r.name
    color := jsOrStr r.color "#a855f7"
    favorite := r.favorite.getD false
    createdTs := r.created_ts.getD nowMs }

/-- JS `Map.prototype.set`: replace the value in place when the key exists,
otherwise append the binding at the end. -/
def upsertEntry {α : Type} (k : String) (v : α) :
    List (String × α) → List (String × α)
  | [] => [(k, v)]
  | (k', v') :: rest =>
    if k' = k then (k, v) :: rest else (k', v') :: upsertEntry k v rest

/-- The guarded insertion `if (!m.has(k)) m.set(k, v)`. -/
def insertIfAbsent {α : Type} (k : String) (v : α) (m : List (String × α)) :
    List (String × α) :=
  if m.any (fun p => p.1 == k) then m else m ++ [(k, v)]

/-- JS `new Map(pairs)`: insert the pairs left to right, later values
overwriting earlier ones at the first occurrence's position. -/
def mapFromPairs {α : Type} (ps : List (String × α)) : List (String × α) :=
  ps.foldl (fun m p => upsertEntry p.1 p.2 m) []

/-- The keys of an association list, in order. -/
def keysOf {α : Type} (m : List (String × α)) : List String := m.map Prod.fst

/-- JS object spread `{...a, ...b}` on string-keyed objects. -/
def spreadMergeZ (a b : List (String × Int)) : List (String × Int) :=
  mapFromPairs (a ++ b)

/-- The source's `applyProfileRow`: each field of the fetched `profiles`
row is written into local state through the source's `||` / `??` / `!==`
fallbacks. -/
def applyProfileRow (r : ProfileRow) (st : AppState) : AppState :=
  { st with
    profile :=
      { name := jsOrOptStr r.display_name (jsOrStr st.profile.name "Student")
        weeklyGoalHours := r.weekly_goal_hours.getD st.profile.weeklyGoalHours
        theme := jsOrOptStr r.theme (jsOrStr st.profile.theme "midnight")
        stopwatchCapOn := r.stopwatch_cap_on != some false
        stopwatchCapHours := clampZ (r.stopwatch_cap_hours.getD st.profile.stopwatchCapHours) 1 24
        ambientType := jsOrOptStr r.session_ambient_type (jsOrStr st.profile.ambientType "off")
        ambientVolume := clamp01 (r.session_ambient_volume.getD st.profile.ambientVolume) }
    island := { xpSec := r.island_xp_sec.getD st.island.xpSec }
    garden :=
      { treeType := jsOrOptStr r.garden_tree_type (jsOrStr st.garden.treeType "Apple")
        growthSec := r.garden_growth_sec.getD st.garden.growthSec
        harvestedOnThisTree := r.garden_harvested_on_tree.getD st.garden.harvestedOnThisTree }
    fruitCollection :=
      match r.fruit_collection with
      | some fc => spreadMergeZ st.fruitCollection fc
      | none => st.fruitCollection }

/-- The label half of the pull phase: convert remote rows, drop rows whose
identifier is still in the tombstone queue, then merge by identifier into the
local set (remote wins per key, first-seen position kept). -/
def mergeLabels (deletedLabelIds : List String) (localItems : List LocalLabel)
    (remoteRows : List LabelRow) (nowMs : Int) : List LocalLabel :=
  (((remoteRows.map (rowToLocalLabel nowMs)).filter
      (fun z => !(deletedLabelIds.contains z.id))).foldl
    (fun m rl => upsertEntry rl.id rl m)
    (mapFromPairs (localItems.map (fun l => (l.id, l))))).map Prod.snd

/-- The map key `String(s.clientId || s.id)` used for the session merge. -/
def sessionKey (s : Session) : String := jsOrStr s.clientId s.id

/-- The session half of the pull phase: convert remote rows, add each under
its client key only when the key is not already present locally, then sort
the merged list descending by `endTs`. -/
def mergePulledSessions (localSessions : List Session) (remoteRows : List SessionRow)
    (nowMs : Int) (worldView : String) : List Session :=
  (((remoteRows.map (rowToLocalSession nowMs worldView)).foldl
      (fun m rs => insertIfAbsent (sessionKey rs) rs m)
      (mapFromPairs (localSessions.map (fun s => (sessionKey s, s))))).map
    Prod.snd).mergeSort (fun a b => decide (b.endTs ≤ a.endTs))

/-- The persisted sync metadata (`sb.lastSyncMs`, `sb.forcePushOnce`,
`sb.deletedLabelIds`). -/
structure SyncMeta where
  lastSyncMs : Int
  forcePushOnce : Bool
  deletedLabelIds : List String
deriving Repr, DecidableEq

/-- What one reconciliation pass receives from the remote store: each `none`
models a failed or empty fetch (`error` / no row), and `deleteOk` the result
of the tombstone bulk delete. -/
structure RemotePull where
  profile : Option ProfileRow
  labels : Option (List LabelRow)
  sessions : Option (List SessionRow)
  deleteOk : Bool
deriving Repr, DecidableEq

/-- The source's `ensureClientIds`, with `sSup`/`lSup` standing for the
random id generators. -/
def ensureClientIds (sSup lSup : Nat → String) (st : AppState) : AppState :=
  { st with
    sessions := st.sessions.mapIdx (fun i s =>
      if s.clientId ≠ "" then s
      else if s.id ≠ "" then { s with clientId := s.id }
      else { s with clientId := sSup i })
    labels := st.labels.mapIdx (fun i l =>
      if l.id ≠ "" then l else { l with id := lSup i }) }

/-- The local-state and metadata effects of one `fullSync` pass: flush the
tombstone queue, pull (profile, labels, sessions) unless the one-shot
force-push flag is set, consume the flag, record the sync time.  The push
phase only sends upserts and does not modify local state. -/
def fullSync (nowMs : Int) (sSup lSup : Nat → String) (meta : SyncMeta) (st : AppState)
    (rp : RemotePull) : AppState × SyncMeta :=
  let st0 := ensureClientIds sSup lSup st
  let meta1 :=
    if meta.deletedLabelIds.isEmpty then meta
    else if rp.deleteOk then { meta with deletedLabelIds := [] } else meta
  let st1 :=
    if meta1.forcePushOnce then st0
    else
      let stA := match rp.profile with
        | some r => applyProfileRow r st0
        | none => st0
      let stB := match rp.labels with
        | some rows => { stA with labels := mergeLabels meta1.deletedLabelIds stA.labels rows nowMs }
        | none => stA
      match rp.sessions with
      | some rows =>
        { stB with sessions := mergePulledSessions stB.sessions rows nowMs stB.worldView }
      | none => stB
  let meta2 := if meta1.forcePushOnce then { meta1 with forcePushOnce := false } else meta1
  (st1, { meta2 with lastSyncMs := nowMs })

/-- The character class `[a-zA-Z0-9_-]` of the lofi video-id regexes. -/
def idChar (c : Char) : Bool := c.isAlpha || c.isDigit || c == '_' || c == '-'

/-- Matches the (lowercase) literal pattern case-insensitively at the head of
the input, returning the rest on success. -/
def dropPat : List Char → List Char → Option (List Char)
  | [], s => some s
  | _ :: _, [] => none
  | p :: ps, c :: cs => if c.toLower = p then dropPat ps cs else none

/-- One attempt of a regex `lit([a-zA-Z0-9_-]{6,})` at the current position:
match the literal, then greedily capture at least 6 id characters. -/
def tryCapture (pat : List Char) (s : List Char) : Option (List Char) :=
  match dropPat pat s with
  | some rest =>
    if 6 ≤ (rest.takeWhile idChar).length then some (rest.takeWhile idChar) else none
  | none => none

/-- One attempt of `[?&]v=([a-zA-Z0-9_-]{6,})` at the current position. -/
def tryCaptureV (s : List Char) : Option (List Char) :=
  match s with
  | c :: rest => if c = '?' ∨ c = '&' then tryCapture ['v', '='] rest else none
  | [] => none

/-- Scans left to right for the first position where the attempt succeeds,
like an unanchored regex search. -/
def scanList (f : List Char → Option (List Char)) : List Char → Option (List Char)
  | [] => f []
  | c :: rest =>
    match f (c :: rest) with
    | some r => some r
    | none => scanList f rest

/-- The video-id extraction of `loadState`: first capture of
`/\/embed\/(...)/i`, `/[?&]v=(...)/i` or `/youtu\.be\/(...)/i`, else "". -/
def extractVideoId (u : String) : String :=
  match scanList (tryCapture "/embed/".data) u.data with
  | some cap => String.mk cap
  | none =>
    match scanList tryCaptureV u.data with
    | some cap => String.mk cap
    | none =>
      match scanList (tryCapture "youtu.be/".data) u.data with
      | some cap => String.mk cap
      | none => ""

/-- The default lofi video id of the source. -/
def defaultLofiId : String := "CFGLoQIhmow"

/-- The embed URL derived from a video id in `loadState`. -/
def lofiUrlOf (vid : String) : String :=
  "https://www.youtube.com/embed/" ++ vid ++ "?autoplay=0&rel=0&modestbranding=1"

/-- The allowed theme set of `loadState`. -/
def allowedThemes : List String := ["midnight", "violet", "emerald", "ocean", "sunset"]

/-- The theme repair of `loadState`: `String(theme || 'midnight')` then the
allowed-set check. -/
def themeNorm (s : String) : String :=
  if allowedThemes.contains (jsOrStr s "midnight") then jsOrStr s "midnight" else "midnight"

/-- The `labels.view` repair: `'list'` stays, anything else becomes `'grid'`. -/
def viewNorm (s : String) : String := if s = "list" then "list" else "grid"

/-- The `labels.sort` repair: `'date'` stays, anything else becomes `'name'`. -/
def sortNorm (s : String) : String := if s = "date" then "date" else "name"

/-- The `profile.sessionAmbient` object. -/
structure SessAmb where
  type : String
  volume : ℚ
deriving Repr, DecidableEq

/-- The `profile` section of a persisted state blob: every key optional
(`none` models an absent or null key).  `defaultRewardMode` is the legacy
default-view key read by the migration; `backgroundCustomData` is the legacy
inline background payload that `loadState` deletes. -/
structure BProfile where
  name : Option String
  weeklyGoalHours : Option ℚ
  theme : Option String
  lastYearViewed : Option ℚ
  stopwatchCapOn : Option Bool
  stopwatchCapHours : Option ℚ
  sessionAmbient : Option SessAmb
  defaultRewardMode : Option String
  backgroundCustomData : Option String
deriving Repr, DecidableEq

/-- The `ui` section of a blob. -/
structure BUi where
  worldView : Option String
deriving Repr, DecidableEq

/-- One entry of a blob's `tasks` array (fields optional). -/
structure BTask where
  id : Option String
  text : Option String
  done : Option Bool
  createdTs : Option ℚ
deriving Repr, DecidableEq

/-- One ambient channel of a blob's `audio.ambient`. -/
structure BAmbientCh where
  isOn : Option Bool
  vol : Option ℚ
deriving Repr, DecidableEq

/-- The `audio.ambient` section of a blob. -/
structure BAmbient where
  fire : Option BAmbientCh
  wind : Option BAmbientCh
  sea : Option BAmbientCh
  nature : Option BAmbientCh
deriving Repr, DecidableEq

/-- The `audio` section of a blob. -/
structure BAudio where
  master : Option ℚ
  ambient : Option BAmbient
  lofiVideoId : Option String
  lofiEmbedUrl : Option String
  videoBgOn : Option Bool
  videoBgOpacity : Option ℚ
  videoOverlayOpacity : Option ℚ
  ytVolume : Option ℚ
  isPlaying : Option Bool
deriving Repr, DecidableEq

/-- The `pomodoro` section of a blob. -/
structure BPomodoro where
  focusMin : Option ℚ
  breakMin : Option ℚ
  longBreakMin : Option ℚ
  longEvery : Option ℚ
deriving Repr, DecidableEq

/-- The `island` section of a blob. -/
structure BIsland where
  xpSec : Option ℚ
deriving Repr, DecidableEq

/-- The `garden` section of a blob. -/
structure BGarden where
  treeType : Option String
  growthSec : Option ℚ
  harvestedOnThisTree : Option ℚ
deriving Repr, DecidableEq

/-- The `labels` section of a blob. -/
structure BLabels where
  items : Option (List LocalLabel)
  view : Option String
  sort : Option String
deriving Repr, DecidableEq

/-- The `habits` section of a blob; items and completions are passed through
verbatim by `loadState`, so their entries are modelled as opaque payloads. -/
structure BHabits where
  items : Option (List String)
  completions : Option (List (String × ℚ))
deriving Repr, DecidableEq

/-- A parsed persisted-state blob (the argument of the defaults-merge in
`loadState`): every section and key may be absent or malformed, which the
typed embedding represents as `none`. -/
structure Blob where
  profile : Option BProfile
  ui : Option BUi
  tasks : Option (List (Option BTask))
  audio : Option BAudio
  pomodoro : Option BPomodoro
  sessions : Option (List Session)
  island : Option BIsland
  garden : Option BGarden
  fruitCollection : Option (List (String × ℚ))
  labels : Option BLabels
  habits : Option BHabits
deriving Repr, DecidableEq

/-- A task after the load-time repair. -/
structure LTask where
  id : String
  text : String
  done : Bool
  createdTs : ℚ
deriving Repr, DecidableEq

/-- One ambient channel after the load-time repair. -/
structure LAmbientCh where
  isOn : Bool
  vol : ℚ
deriving Repr, DecidableEq

/-- The four ambient channels after the load-time repair. -/
structure LAmbient where
  fire : LAmbientCh
  wind : LAmbientCh
  sea : LAmbientCh
  nature : LAmbientCh
deriving Repr, DecidableEq

/-- The audio section after the load-time repair. -/
structure LAudio where
  master : ℚ
  ambient : LAmbient
  lofiVideoId : String
  lofiEmbedUrl : String
  videoBgOn : Bool
  videoBgOpacity : ℚ
  videoOverlayOpacity : ℚ
  ytVolume : ℚ
  isPlaying : Bool
deriving Repr, DecidableEq

/-- The profile section after the load-time repair.  `defaultRewardMode` is
the legacy key, preserved by the spread merge when present. -/
structure LProfile where
  name : String
  weeklyGoalHours : ℚ
  theme : String
  lastYearViewed : ℚ
  stopwatchCapOn : Bool
  stopwatchCapHours : ℚ
  sessionAmbient : SessAmb
  defaultRewardMode : Option String
deriving Repr, DecidableEq

/-- The pomodoro settings after the load-time merge. -/
structure LPomodoro where
  focusMin : ℚ
  breakMin : ℚ
  longBreakMin : ℚ
  longEvery : ℚ
deriving Repr, DecidableEq

/-- The labels section after the load-time repair. -/
structure LLabels where
  items : List LocalLabel
  view : String
  sort : String
deriving Repr, DecidableEq

/-- The habits section after the load-time repair. -/
structure LHabits where
  items : List String
  completions : List (String × ℚ)
deriving Repr, DecidableEq

/-- The garden section after the load-time merge. -/
structure LGarden where
  treeType : String
  growthSec : ℚ
  harvestedOnThisTree : ℚ
deriving Repr, DecidableEq

/-- The state produced by `loadState` (`merged` in the source), restricted to
the sections the defaults-merge touches. -/
structure LoadedState where
  profile : LProfile
  worldView : String
  tasks : List LTask
  audio : LAudio
  pomodoro : LPomodoro
  sessions : List Session
  islandXpSec : ℚ
  garden : LGarden
  fruitCollection : List (String × ℚ)
  labels : LLabels
  habits : LHabits
deriving Repr, DecidableEq

/-- One ambient channel's repair: `{on: !!cur.on, vol: clamp01(cur.vol ?? def)}`,
where an absent channel falls back to the default object (whose `on` is
`false`). -/
def loadChannel (ch : Option BAmbientCh) (dvol : ℚ) : LAmbientCh :=
  match ch with
  | some c => ⟨c.isOn.getD false, clamp01 (c.vol.getD dvol)⟩
  | none => ⟨false, clamp01 dvol⟩

/-- The all-zero fruit collection of `defaultState()`, rational-valued for
the load model. -/
def defaultFruitCollectionQ : List (String × ℚ) :=
  [("Apple", 0), ("Orange", 0), ("Cherry", 0), ("Mango", 0), ("Peach", 0)]

/-- The repair of one raw task (`String(t.id || uid())`, text slice, `!!done`,
`Number(t.createdTs || Date.now())`), with `uidS i` standing for `uid()`. -/
def loadTask (nowMs : ℚ) (uidS : Nat → String) (i : Nat) (t : BTask) : LTask :=
  { id :=
      match t.id with
      | some s => if s = "" then uidS i else s
      | none => uidS i
    text := jsSlice (t.text.getD "") 80
    done := t.done.getD false
    createdTs :=
      match t.createdTs with
      | some q => if q = 0 then nowMs else q
      | none => nowMs }

/-- The lofi video id computed by `loadState` from the blob's audio section. -/
def loadLofiVid (ab : Option BAudio) : String :=
  if jsTrim ((ab.bind BAudio.lofiVideoId).getD "") = "" then
    (if extractVideoId (jsTrim ((ab.bind BAudio.lofiEmbedUrl).getD "")) = "" then defaultLofiId
     else extractVideoId (jsTrim ((ab.bind BAudio.lofiEmbedUrl).getD "")))
  else jsTrim ((ab.bind BAudio.lofiVideoId).getD "")

/-- The defaults-merge of `loadState` (`merged` plus all the per-field
repairs), with `nowMs` for `Date.now()`, `currentYear` for the default
`lastYearViewed` and `uidS` for the task id generator. -/
def loadMerge (nowMs currentYear : ℚ) (uidS : Nat → String) (b : Blob) : LoadedState :=
  { profile :=
      { name := ((b.profile.bind BProfile.name).getD "Student")
        weeklyGoalHours := (b.profile.bind BProfile.weeklyGoalHours).getD 10
        theme := themeNorm ((b.profile.bind BProfile.theme).getD "midnight")
        lastYearViewed := (b.profile.bind BProfile.lastYearViewed).getD currentYear
        stopwatchCapOn := (b.profile.bind BProfile.stopwatchCapOn).getD true
        stopwatchCapHours := clamp ((b.profile.bind BProfile.stopwatchCapHours).getD 6) 1 24
        sessionAmbient := (b.profile.bind BProfile.sessionAmbient).getD ⟨"off", 2/5⟩
        defaultRewardMode := b.profile.bind BProfile.defaultRewardMode }
    worldView :=
      normalizeRewardMode (jsOrStr
        (match b.ui with
         | some u => u.worldView.getD "island"
         | none =>
           match b.profile.bind BProfile.defaultRewardMode with
           | some s => if s = "" then "island" else s
           | none => "island")
        "island")
    tasks := ((b.tasks.getD []).filterMap id).mapIdx (loadTask nowMs uidS)
    audio :=
      { master := clamp01 ((b.audio.bind BAudio.master).getD (3/5))
        ambient :=
          { fire := loadChannel ((b.audio.bind BAudio.ambient).bind BAmbient.fire) (9/20)
            wind := loadChannel ((b.audio.bind BAudio.ambient).bind BAmbient.wind) (7/20)
            sea := loadChannel ((b.audio.bind BAudio.ambient).bind BAmbient.sea) (7/20)
            nature := loadChannel ((b.audio.bind BAudio.ambient).bind BAmbient.nature) (7/20) }
        lofiVideoId := loadLofiVid b.audio
        lofiEmbedUrl := lofiUrlOf (loadLofiVid b.audio)
        videoBgOn := (b.audio.bind BAudio.videoBgOn).getD false
        videoBgOpacity := clamp01 ((b.audio.bind BAudio.videoBgOpacity).getD (11/50))
        videoOverlayOpacity := clamp01 ((b.audio.bind BAudio.videoOverlayOpacity).getD (11/20))
        ytVolume := clamp ((b.audio.bind BAudio.ytVolume).getD 60) 0 100
        isPlaying := false }
    pomodoro :=
      { focusMin := (b.pomodoro.bind BPomodoro.focusMin).getD 25
        breakMin := (b.pomodoro.bind BPomodoro.breakMin).getD 5
        longBreakMin := (b.pomodoro.bind BPomodoro.longBreakMin).getD 15
        longEvery := (b.pomodoro.bind BPomodoro.longEvery).getD 4 }
    sessions := b.sessions.getD []
    islandXpSec := (b.island.bind BIsland.xpSec).getD 0
    garden :=
      { treeType := (b.garden.bind BGarden.treeType).getD "Apple"
        growthSec := (b.garden.bind BGarden.growthSec).getD 0
        harvestedOnThisTree := (b.garden.bind BGarden.harvestedOnThisTree).getD 0 }
    fruitCollection := mapFromPairs (defaultFruitCollectionQ ++ b.fruitCollection.getD [])
    labels :=
      { items := (b.labels.bind BLabels.items).getD []
        view := viewNorm ((b.labels.bind BLabels.view).getD "grid")
        sort := sortNorm ((b.labels.bind BLabels.sort).getD "name") }
    habits :=
      { items := (b.habits.bind BHabits.items).getD []
        completions := (b.habits.bind BHabits.completions).getD [] } }

/-- The `defaultState()` of the source, restricted to the load model. -/
def defaultLoadedState (currentYear : ℚ) : LoadedState :=
  { profile := ⟨"Student", 10, "midnight", currentYear, true, 6, ⟨"off", 2/5⟩, none⟩
    worldView := "island"
    tasks := []
    audio := ⟨3/5, ⟨⟨false, 9/20⟩, ⟨false, 7/20⟩, ⟨false, 7/20⟩, ⟨false, 7/20⟩⟩,
      defaultLofiId, lofiUrlOf defaultLofiId, false, 11/50, 11/20, 60, false⟩
    pomodoro := ⟨25, 5, 15, 4⟩
    sessions := []
    islandXpSec := 0
    garden := ⟨"Apple", 0, 0⟩
    fruitCollection := defaultFruitCollectionQ
    labels := ⟨[], "grid", "name"⟩
    habits := ⟨[], []⟩ }

/-- The source's `loadState`: a missing or unparsable stored blob (`none`)
yields the defaults, otherwise the defaults-merge runs. -/
def loadState (parsed : Option Blob) (nowMs currentYear : ℚ) (uidS : Nat → String) :
    LoadedState :=
  match parsed with
  | none => defaultLoadedState currentYear
  | some b => loadMerge nowMs currentYear uidS b

/-- Re-reading a loaded state as a blob: every section and key is present,
which is what `JSON.parse(JSON.stringify(merged))` produces. -/
def stateToBlob (st : LoadedState) : Blob :=
  { profile := some ⟨some st.profile.name, some st.profile.weeklyGoalHours,
      some st.profile.theme, some st.profile.lastYearViewed,
      some st.profile.stopwatchCapOn, some st.profile.stopwatchCapHours,
      some st.profile.sessionAmbient, st.profile.defaultRewardMode, none⟩
    ui := some ⟨some st.worldView⟩
    tasks := some (st.tasks.map (fun t =>
      some ⟨some t.id, some t.text, some t.done, some t.createdTs⟩))
    audio := some ⟨some st.audio.master,
      some ⟨some ⟨some st.audio.ambient.fire.isOn, some st.audio.ambient.fire.vol⟩,
        some ⟨some st.audio.ambient.wind.isOn, some st.audio.ambient.wind.vol⟩,
        some ⟨some st.audio.ambient.sea.isOn, some st.audio.ambient.sea.vol⟩,
        some ⟨some st.audio.ambient.nature.isOn, some st.audio.ambient.nature.vol⟩⟩,
      some st.audio.lofiVideoId, some st.audio.lofiEmbedUrl, some st.audio.videoBgOn,
      some st.audio.videoBgOpacity, some st.audio.videoOverlayOpacity,
      some st.audio.ytVolume, some st.audio.isPlaying⟩
    pomodoro := some ⟨some st.pomodoro.focusMin, some st.pomodoro.breakMin,
      some st.pomodoro.longBreakMin, some st.pomodoro.longEvery⟩
    sessions := some st.sessions
    island := some ⟨some st.islandXpSec⟩
    garden := some ⟨some st.garden.treeType, some st.garden.growthSec,
      some st.garden.harvestedOnThisTree⟩
    fruitCollection := some st.fruitCollection
    labels := some ⟨some st.labels.items, some st.labels.view, some st.labels.sort⟩
    habits := some ⟨some st.habits.items, some st.habits.completions⟩ }

theorem removeFirst_eq_none {p : Session → Bool} {l : List Session}
    (h : ∀ s ∈ l, p s = false) : removeFirst p l = (none, l) := by
  induction l with
  | nil => rfl
  | cons s rest ih =>
    simp only [removeFirst, h s (List.mem_cons_self s rest)]
    simp [ih fun x hx => h x (List.mem_cons_of_mem s hx)]

theorem lockstep_applyOp (st : AppState) (op : Op)
    (h : st.island.xpSec = st.garden.growthSec) :
    (applyOp st op).island.xpSec = (applyOp st op).garden.growthSec := by
  cases op with
  | record args newId nowMs =>
    simp only [applyOp, saveSession]
    split
    · exact h
    · simp [h]
  | delete sessionId =>
    simp only [applyOp, deleteSessionById]
    split
    · exact h
    · rcases hr : removeFirst (fun s => s.id == sessionId) st.sessions with ⟨r, rest⟩
      cases r <;> simp [hr, h]
  | reset => simp [applyOp, resetStats]

theorem getFruit_setFruit (c : List (String × Int)) (k : String) (v : Int) :
    getFruit (setFruit c k v) k = v := by
  by_cases hc : c.any (fun p => p.1 == k)
  · have hfind : List.find? (fun p => p.1 == k)
        (c.map (fun p => if p.1 == k then (k, v) else p)) = some (k, v) := by
      induction c with
      | nil => simp at hc
      | cons p rest ih =>
        by_cases hp : p.1 = k
        · simp [hp]
        · have hpk : (p.1 == k) = false := by simpa using hp
          rw [List.any_cons, hpk, Bool.false_or] at hc
          have hmap : (if (p.1 == k) = true then (k, v) else p) = p := by
            rw [hpk]
            simp
          rw [List.map_cons, hmap, List.find?_cons_of_neg _ (by simp [hpk])]
          exact ih hc
    have hset : setFruit c k v = c.map (fun p => if p.1 == k then (k, v) else p) := by
      simp [setFruit, hc]
    rw [hset]
    simp only [getFruit, hfind]
  · have hfind : List.find? (fun p => p.1 == k) c = none := by
      rw [List.find?_eq_none]
      intro x hx hxk
      exact hc (List.any_eq_true.mpr ⟨x, hx, hxk⟩)
    have hset : setFruit c k v = c ++ [(k, v)] := by
      simp [setFruit, hc]
    rw [hset]
    simp only [getFruit, List.find?_append, hfind, Option.none_or]
    simp

theorem keysOf_cons {α : Type} (p : String × α) (m : List (String × α)) :
    keysOf (p :: m) = p.1 :: keysOf m := rfl

theorem keysOf_append {α : Type} (a b : List (String × α)) :
    keysOf (a ++ b) = keysOf a ++ keysOf b := by
  simp [keysOf]

theorem mem_keysOf {α : Type} {k : String} {m : List (String × α)} :
    k ∈ keysOf m ↔ ∃ p ∈ m, p.1 = k := by
  simp [keysOf]

theorem anyKey_eq_true_iff {α : Type} (k : String) (m : List (String × α)) :
    (m.any (fun p => p.1 == k)) = true ↔ k ∈ keysOf m := by
  simp [List.any_eq_true, keysOf]

theorem upsertEntry_of_not_mem {α : Type} {k : String} (v : α) {m : List (String × α)}
    (h : k ∉ keysOf m) : upsertEntry k v m = m ++ [(k, v)] := by
  induction m with
  | nil => rfl
  | cons p rest ih =>
    rw [keysOf_cons, List.mem_cons] at h
    push_neg at h
    obtain ⟨h1, h2⟩ := h
    obtain ⟨a, b⟩ := p
    simp only [upsertEntry]
    rw [if_neg (fun he => h1 he.symm), ih h2, List.cons_append]

theorem mem_upsertEntry {α : Type} {q : String × α} {k : String} {v : α}
    {m : List (String × α)} (h : q ∈ upsertEntry k v m) : q ∈ m ∨ q = (k, v) := by
  induction m with
  | nil => simpa [upsertEntry] using h
  | cons p rest ih =>
    simp only [upsertEntry] at h
    by_cases hk : p.1 = k
    · rw [if_pos hk] at h
      rcases List.mem_cons.mp h with h1 | h1
      · exact Or.inr h1
      · exact Or.inl (List.mem_cons_of_mem _ h1)
    · rw [if_neg hk] at h
      rcases List.mem_cons.mp h with h1 | h1
      · exact Or.inl (h1 ▸ List.mem_cons_self _ _)
      · rcases ih h1 with h2 | h2
        · exact Or.inl (List.mem_cons_of_mem _ h2)
        · exact Or.inr h2

theorem upsertEntry_mem_self {α : Type} (k : String) (v : α) (m : List (String × α)) :
    (k, v) ∈ upsertEntry k v m := by
  induction m with
  | nil => simp [upsertEntry]
  | cons p rest ih =>
    simp only [upsertEntry]
    by_cases hk : p.1 = k
    · rw [if_pos hk]
      exact List.mem_cons_self _ _
    · rw [if_neg hk]
      exact List.mem_cons_of_mem _ ih

theorem mem_upsertEntry_of_mem {α : Type} {q : String × α} {m : List (String × α)}
    (k : String) (v : α) (hq : q ∈ m) (hne : q.1 ≠ k) : q ∈ upsertEntry k v m := by
  induction m with
  | nil => simp at hq
  | cons p rest ih =>
    simp only [upsertEntry]
    by_cases hk : p.1 = k
    · rw [if_pos hk]
      rcases List.mem_cons.mp hq with h1 | h1
      · exact absurd (by rw [h1]; exact hk) hne
      · exact List.mem_cons_of_mem _ h1
    · rw [if_neg hk]
      rcases List.mem_cons.mp hq with h1 | h1
      · exact h1 ▸ List.mem_cons_self _ _
      · exact List.mem_cons_of_mem _ (ih h1)

theorem keysOf_upsertEntry_of_mem {α : Type} {k : String} (v : α) {m : List (String × α)}
    (h : k ∈ keysOf m) : keysOf (upsertEntry k v m) = keysOf m := by
  induction m with
  | nil => simp [keysOf] at h
  | cons p rest ih =>
    simp only [upsertEntry]
    by_cases hk : p.1 = k
    · rw [if_pos hk, keysOf_cons, keysOf_cons, hk]
    · rw [if_neg hk, keysOf_cons, keysOf_cons]
      rw [keysOf_cons] at h
      rcases List.mem_cons.mp h with h1 | h1
      · exact absurd h1.symm hk
      · rw [ih h1]

theorem nodup_keysOf_upsertEntry {α : Type} (k : String) (v : α) {m : List (String × α)}
    (h : (keysOf m).Nodup) : (keysOf (upsertEntry k v m)).Nodup := by
  by_cases hk : k ∈ keysOf m
  · rw [keysOf_upsertEntry_of_mem v hk]
    exact h
  · rw [upsertEntry_of_not_mem v hk, keysOf_append, List.nodup_append]
    refine ⟨h, List.nodup_singleton _, ?_⟩
    intro a ha hb
    rw [show keysOf [(k, v)] = [k] from rfl, List.mem_singleton] at hb
    subst hb
    exact hk ha

theorem foldl_upsertEntry_append {α : Type} :
    ∀ (ps : List (String × α)) (m : List (String × α)),
      (keysOf (m ++ ps)).Nodup →
      ps.foldl (fun acc p => upsertEntry p.1 p.2 acc) m = m ++ ps := by
  intro ps
  induction ps with
  | nil => intro m _; simp
  | cons p ps' ih =>
    intro m h
    have hp : p.1 ∉ keysOf m := by
      rw [keysOf_append, keysOf_cons, List.nodup_append] at h
      intro hx
      exact h.2.2 hx (List.mem_cons_self _ _)
    rw [List.foldl_cons, upsertEntry_of_not_mem p.2 hp]
    have h2 : keysOf ((m ++ [p]) ++ ps') = keysOf (m ++ p :: ps') := by
      rw [List.append_assoc, List.singleton_append]
    rw [ih (m ++ [p]) (by rw [h2]; exact h), List.append_assoc, List.singleton_append]

theorem mapFromPairs_eq_self {α : Type} (ps : List (String × α))
    (h : (keysOf ps).Nodup) : mapFromPairs ps = ps := by
  have := foldl_upsertEntry_append ps [] (by simpa using h)
  simpa [mapFromPairs] using this

theorem keyed_nodup_eq {α : Type} :
    ∀ {m : List (String × α)}, (keysOf m).Nodup →
      ∀ {p q : String × α}, p ∈ m → q ∈ m → p.1 = q.1 → p = q := by
  intro m
  induction m with
  | nil =>
    intro _ p q hp
    simp at hp
  | cons r rest ih =>
    intro hnd p q hp hq hk
    rw [keysOf_cons] at hnd
    obtain ⟨hr, hrest⟩ := List.nodup_cons.mp hnd
    rcases List.mem_cons.mp hp with h1 | h1 <;> rcases List.mem_cons.mp hq with h2 | h2
    · exact h1.trans h2.symm
    · exact absurd (mem_keysOf.mpr ⟨q, h2, by rw [← hk, h1]⟩) hr
    · exact absurd (mem_keysOf.mpr ⟨p, h1, by rw [hk, h2]⟩) hr
    · exact ih hrest h1 h2 hk

theorem mem_foldl_upsertEntry {α : Type} (keyf : α → String) :
    ∀ (xs : List α) (m : List (String × α)) {q : String × α},
      q ∈ xs.foldl (fun acc x => upsertEntry (keyf x) x acc) m →
      q ∈ m ∨ ∃ x ∈ xs, q = (keyf x, x) := by
  intro xs
  induction xs with
  | nil => exact fun m q h => Or.inl h
  | cons x xs' ih =>
    intro m q h
    rcases ih _ h with h1 | h1
    · rcases mem_upsertEntry h1 with h2 | h2
      · exact Or.inl h2
      · exact Or.inr ⟨x, List.mem_cons_self _ _, h2⟩
    · obtain ⟨y, hy, he⟩ := h1
      exact Or.inr ⟨y, List.mem_cons_of_mem _ hy, he⟩

theorem mem_foldl_upsertEntry_of_mem {α : Type} (keyf : α → String) :
    ∀ (xs : List α) (m : List (String × α)) {q : String × α},
      q ∈ m → (∀ x ∈ xs, keyf x ≠ q.1) →
      q ∈ xs.foldl (fun acc x => upsertEntry (keyf x) x acc) m := by
  intro xs
  induction xs with
  | nil => exact fun m q h _ => h
  | cons x xs' ih =>
    intro m q h hx
    refine ih _ (mem_upsertEntry_of_mem _ _ h ?_) ?_
    · exact fun he => hx x (List.mem_cons_self _ _) he.symm
    · exact fun y hy => hx y (List.mem_cons_of_mem _ hy)

theorem foldl_upsertEntry_mem_of_nodup {α : Type} (keyf : α → String) :
    ∀ (xs : List α) (m : List (String × α)) {x : α},
      x ∈ xs → (xs.map keyf).Nodup →
      (keyf x, x) ∈ xs.foldl (fun acc y => upsertEntry (keyf y) y acc) m := by
  intro xs
  induction xs with
  | nil =>
    intro m x hx
    simp at hx
  | cons y ys ih =>
    intro m x hx hnd
    rw [List.map_cons, List.nodup_cons] at hnd
    rcases List.mem_cons.mp hx with h1 | h1
    · subst h1
      refine mem_foldl_upsertEntry_of_mem keyf ys _ (upsertEntry_mem_self _ _ _) ?_
      intro z hz he
      exact hnd.1 (List.mem_map.mpr ⟨z, hz, he⟩)
    · exact ih _ h1 hnd.2

theorem keyfst_foldl_upsertEntry {α : Type} (keyf : α → String) :
    ∀ (xs : List α) (m : List (String × α)),
      (∀ p ∈ m, p.1 = keyf p.2) →
      ∀ p ∈ xs.foldl (fun acc x => upsertEntry (keyf x) x acc) m, p.1 = keyf p.2 := by
  intro xs
  induction xs with
  | nil => exact fun m h => h
  | cons x xs' ih =>
    intro m h
    refine ih _ ?_
    intro p hp
    rcases mem_upsertEntry hp with h1 | h1
    · exact h p h1
    · rw [h1]

theorem nodup_keysOf_foldl_upsertEntry {α : Type} (keyf : α → String) :
    ∀ (xs : List α) (m : List (String × α)),
      (keysOf m).Nodup →
      (keysOf (xs.foldl (fun acc x => upsertEntry (keyf x) x acc) m)).Nodup := by
  intro xs
  induction xs with
  | nil => exact fun m h => h
  | cons x xs' ih => exact fun m h => ih _ (nodup_keysOf_upsertEntry _ _ h)

theorem mem_insertIfAbsent_of_mem {α : Type} {q : String × α} (k : String) (v : α)
    {m : List (String × α)} (h : q ∈ m) : q ∈ insertIfAbsent k v m := by
  unfold insertIfAbsent
  split
  · exact h
  · exact List.mem_append_left _ h

theorem mem_insertIfAbsent {α : Type} {q : String × α} {k : String} {v : α}
    {m : List (String × α)} (h : q ∈ insertIfAbsent k v m) :
    q ∈ m ∨ (q = (k, v) ∧ k ∉ keysOf m) := by
  unfold insertIfAbsent at h
  split at h
  next hc => exact Or.inl h
  next hc =>
    rcases List.mem_append.mp h with h1 | h1
    · exact Or.inl h1
    · refine Or.inr ⟨List.mem_singleton.mp h1, fun hk => hc ?_⟩
      exact (anyKey_eq_true_iff k m).mpr hk

theorem keysOf_subset_insertIfAbsent {α : Type} (k : String) (v : α)
    (m : List (String × α)) : keysOf m ⊆ keysOf (insertIfAbsent k v m) := by
  unfold insertIfAbsent
  split
  · exact fun x h => h
  · rw [keysOf_append]
    exact fun x h => List.mem_append_left _ h

theorem mem_foldl_insertIfAbsent_of_mem {α : Type} (keyf : α → String) :
    ∀ (xs : List α) (m : List (String × α)) {q : String × α},
      q ∈ m → q ∈ xs.foldl (fun acc x => insertIfAbsent (keyf x) x acc) m := by
  intro xs
  induction xs with
  | nil => exact fun m q h => h
  | cons x xs' ih => exact fun m q h => ih _ (mem_insertIfAbsent_of_mem _ _ h)

theorem mem_foldl_insertIfAbsent {α : Type} (keyf : α → String) :
    ∀ (xs : List α) (m : List (String × α)) {q : String × α},
      q ∈ xs.foldl (fun acc x => insertIfAbsent (keyf x) x acc) m →
      q ∈ m ∨ (∃ x ∈ xs, q = (keyf x, x) ∧ keyf x ∉ keysOf m) := by
  intro xs
  induction xs with
  | nil => exact fun m q h => Or.inl h
  | cons x xs' ih =>
    intro m q h
    rcases ih _ h with h1 | h1
    · rcases mem_insertIfAbsent h1 with h2 | ⟨h2, h3⟩
      · exact Or.inl h2
      · exact Or.inr ⟨x, List.mem_cons_self _ _, h2, h3⟩
    · obtain ⟨y, hy, he, hk⟩ := h1
      refine Or.inr ⟨y, List.mem_cons_of_mem _ hy, he, fun hmem => hk ?_⟩
      exact keysOf_subset_insertIfAbsent _ _ _ hmem

theorem mapIdx_id_of_eq {α : Type} :
    ∀ (l : List α) (f : Nat → α → α), (∀ x ∈ l, ∀ i, f i x = x) → l.mapIdx f = l := by
  intro l
  induction l with
  | nil => intro f _; rfl
  | cons x xs ih =>
    intro f h
    rw [List.mapIdx_cons, h x (List.mem_cons_self _ _) 0,
      ih (fun i => f (i + 1)) (fun y hy i => h y (List.mem_cons_of_mem _ hy) (i + 1))]

/-- C1: `saveSession(d, ...)` persists a session iff `round(d) ≥ 60`; a
rejection returns `false` and leaves the state (in particular the ledger and
both progression counters) unchanged; a success returns `true`, prepends the
new record to the ledger and adds the rounded duration to both counters. -/
theorem saveSession_minimum_duration (args : SaveArgs) (newId : String) (nowMs : Int)
    (st : AppState) :
    ((saveSession args newId nowMs st).1 = true ↔ 60 ≤ jsRound args.durationSec) ∧
    ((saveSession args newId nowMs st).1 = false →
      (saveSession args newId nowMs st).2 = st) ∧
    ((saveSession args newId nowMs st).1 = true →
      ∃ s : Session,
        (saveSession args newId nowMs st).2.sessions = s :: st.sessions ∧
        s.durationSec = jsRound args.durationSec ∧
        (saveSession args newId nowMs st).2.island.xpSec
          = st.island.xpSec + jsRound args.durationSec ∧
        (saveSession args newId nowMs st).2.garden.growthSec
          = st.garden.growthSec + jsRound args.durationSec) := by
  have hmax : max 0 (jsRound args.durationSec) < 60 ↔ ¬ 60 ≤ jsRound args.durationSec := by
    rcases max_cases 0 (jsRound args.durationSec) with ⟨he, hle⟩ | ⟨he, hlt⟩ <;> omega
  simp only [saveSession]
  split
  next hlt =>
    refine ⟨by simpa using hmax.mp hlt, fun _ => rfl, fun hfalse => by simp at hfalse⟩
  next hge =>
    have h60 : 60 ≤ jsRound args.durationSec := by
      by_contra hc
      exact hge (hmax.mpr hc)
    have hmr : max 0 (jsRound args.durationSec) = jsRound args.durationSec := by
      rcases max_cases 0 (jsRound args.durationSec) with ⟨he, hle⟩ | ⟨he, _⟩ <;> omega
    refine ⟨by simp [h60], fun hfalse => by simp at hfalse, fun _ => ⟨_, rfl, ?_, ?_, ?_⟩⟩
    · exact hmr
    · simp [hmr]
    · simp [hmr]

theorem saveSession_minimum_duration_witness :
    (saveSession ⟨90, "stopwatch", "", "Maths", none, none⟩ "s1" 5000 defaultAppState).1 = true :=
  (saveSession_minimum_duration ⟨90, "stopwatch", "", "Maths", none, none⟩ "s1" 5000
    defaultAppState).1.mpr (by norm_num [jsRound])

/-- C2: over any sequence of record/delete/reset operations from the default
state, the Island and Garden progression counters stay equal — they move in
lockstep. -/
theorem progression_lockstep (ops : List Op) :
    (runOps ops).island.xpSec = (runOps ops).garden.growthSec := by
  have main : ∀ (l : List Op) (st : AppState),
      st.island.xpSec = st.garden.growthSec →
      (l.foldl applyOp st).island.xpSec = (l.foldl applyOp st).garden.growthSec := by
    intro l
    induction l with
    | nil => exact fun st h => h
    | cons op rest ih => exact fun st h => ih _ (lockstep_applyOp st op h)
  exact main ops defaultAppState rfl

/-- C9: with growth exactly at the mature threshold plus two fruit periods and
no prior harvest on this tree, two fruits are ready; harvesting then empties
the ready count, adds 2 to the fruit collection under the current tree type
and adds 2 to `harvestedOnThisTree`; a harvest with nothing ready is a no-op. -/
theorem garden_fruit_scenario (st : AppState)
    (hg : st.garden.growthSec = treeMinSec + 2 * FRUIT_RATE_SEC)
    (hh : st.garden.harvestedOnThisTree = 0) :
    computeFruitsReady st.garden = 2 ∧
    computeFruitsReady (harvestFruits st).garden = 0 ∧
    getFruit (harvestFruits st).fruitCollection st.garden.treeType
      = getFruit st.fruitCollection st.garden.treeType + 2 ∧
    (harvestFruits st).garden.harvestedOnThisTree = st.garden.harvestedOnThisTree + 2 ∧
    (∀ u : AppState, computeFruitsReady u.garden = 0 → harvestFruits u = u) := by
  have hready : computeFruitsReady st.garden = 2 := by
    simp only [computeFruitsReady, hg, hh]
    decide
  have hnoop : ∀ u : AppState, computeFruitsReady u.garden = 0 → harvestFruits u = u := by
    intro u hu
    simp [harvestFruits, hu]
  refine ⟨hready, ?_, ?_, ?_, hnoop⟩
  · simp only [harvestFruits, hready]
    norm_num
    simp only [computeFruitsReady, hg, hh]
    decide
  · simp only [harvestFruits, hready]
    norm_num
    exact getFruit_setFruit _ _ _
  · simp only [harvestFruits, hready]
    norm_num

theorem garden_fruit_scenario_witness :
    computeFruitsReady (AppState.garden
      ({ defaultAppState with garden := ⟨"Apple", 10800, 0⟩ })) = 2 :=
  (garden_fruit_scenario
    ({ defaultAppState with garden := ⟨"Apple", 10800, 0⟩ }) (by decide) rfl).1

/-- C10: deleting by an identifier no stored session carries (the empty
identifier included) returns `false`, leaves the whole state unchanged and
issues no remote delete. -/
theorem deleteSessionById_missing_noop (sessionId : String) (st : AppState)
    (h : ∀ s ∈ st.sessions, s.id ≠ sessionId) :
    deleteSessionById sessionId st = (false, st, none) := by
  by_cases he : sessionId = ""
  · simp [deleteSessionById, he]
  · have hb : ∀ s ∈ st.sessions, (fun s => s.id == sessionId) s = false := by
      intro s hs
      simpa using h s hs
    simp [deleteSessionById, he, removeFirst_eq_none hb]

theorem deleteSessionById_missing_noop_witness :
    deleteSessionById "zzz"
      ({ defaultAppState with sessions :=
          [⟨"abc", "abc", 0, 90000, 90, "manual", "island", ""⟩] })
      = (false,
         ({ defaultAppState with sessions :=
             [⟨"abc", "abc", 0, 90000, 90, "manual", "island", ""⟩] }), none) :=
  deleteSessionById_missing_noop "zzz" _ (by decide)

/-- C3: during the pull phase's session merge, every local session survives
with its field values unchanged (local wins on `clientId` collision), every
merged entry is either a local session or a converted remote row whose client
key was absent locally, and the merged list is sorted in descending order of
`endTs`. -/
theorem sessionPull_local_wins (localSessions : List Session) (remoteRows : List SessionRow)
    (nowMs : Int) (worldView : String)
    (hnd : (localSessions.map sessionKey).Nodup) :
    (∀ s ∈ localSessions, s ∈ mergePulledSessions localSessions remoteRows nowMs worldView) ∧
    (∀ x ∈ mergePulledSessions localSessions remoteRows nowMs worldView,
      x ∈ localSessions ∨
        (x ∈ remoteRows.map (rowToLocalSession nowMs worldView) ∧
          sessionKey x ∉ localSessions.map sessionKey)) ∧
    (mergePulledSessions localSessions remoteRows nowMs worldView).Pairwise
      (fun a b => b.endTs ≤ a.endTs) := by
  have hkeys : keysOf (localSessions.map (fun s => (sessionKey s, s)))
      = localSessions.map sessionKey := by
    simp only [keysOf, List.map_map]
    rfl
  have hbase : mapFromPairs (localSessions.map (fun s => (sessionKey s, s)))
      = localSessions.map (fun s => (sessionKey s, s)) :=
    mapFromPairs_eq_self _ (by rw [hkeys]; exact hnd)
  refine ⟨?_, ?_, ?_⟩
  · intro s hs
    unfold mergePulledSessions
    rw [List.mem_mergeSort]
    refine List.mem_map.mpr ⟨(sessionKey s, s), ?_, rfl⟩
    refine mem_foldl_insertIfAbsent_of_mem sessionKey _ _ ?_
    rw [hbase]
    exact List.mem_map.mpr ⟨s, hs, rfl⟩
  · intro x hx
    unfold mergePulledSessions at hx
    rw [List.mem_mergeSort] at hx
    obtain ⟨p, hp, hpx⟩ := List.mem_map.mp hx
    rcases mem_foldl_insertIfAbsent sessionKey _ _ hp with h1 | ⟨r, hr, he, hk⟩
    · rw [hbase] at h1
      obtain ⟨s, hs, hse⟩ := List.mem_map.mp h1
      left
      rw [← hpx, ← hse]
      exact hs
    · right
      subst he
      simp only at hpx
      subst hpx
      rw [hbase, hkeys] at hk
      exact ⟨hr, hk⟩
  · unfold mergePulledSessions
    have hs := @List.sorted_mergeSort Session (fun a b => decide (b.endTs ≤ a.endTs))
      (fun a b c hab hbc => by
        simp only [decide_eq_true_eq] at *
        omega)
      (fun a b => by
        simp only [Bool.or_eq_true, decide_eq_true_eq]
        omega)
      (((remoteRows.map (rowToLocalSession nowMs worldView)).foldl
          (fun m rs => insertIfAbsent (sessionKey rs) rs m)
          (mapFromPairs (localSessions.map (fun s => (sessionKey s, s))))).map Prod.snd)
    exact hs.imp (fun h => of_decide_eq_true h)

theorem sessionPull_local_wins_witness :
    (⟨"X", "X", 0, 1000, 90, "manual", "island", "A"⟩ : Session) ∈
      mergePulledSessions [⟨"X", "X", 0, 1000, 90, "manual", "island", "A"⟩]
        [⟨"X", some 5, some 2000, 120, some "B", some "timer", some "garden"⟩] 0 "island" :=
  (sessionPull_local_wins _ _ 0 "island" (by decide)).1 _ (List.mem_singleton_self _)

/-- C4: the label merge of the pull phase never adds back a converted remote
row whose identifier is still in the tombstone queue (every merged label is
either local or a remote one with an unqueued identifier); a surviving remote
row lands in the merged set and evicts a different same-identifier local
entry; a local entry whose identifier no surviving remote row carries is
preserved. -/
theorem labelPull_tombstone (deletedLabelIds : List String) (localItems : List LocalLabel)
    (remoteRows : List LabelRow) (nowMs : Int)
    (hnd : (localItems.map LocalLabel.id).Nodup)
    (hrd : (((remoteRows.map (rowToLocalLabel nowMs)).filter
        (fun z => !(deletedLabelIds.contains z.id))).map LocalLabel.id).Nodup) :
    (∀ x ∈ mergeLabels deletedLabelIds localItems remoteRows nowMs,
      x ∈ localItems ∨
        (x ∈ remoteRows.map (rowToLocalLabel nowMs) ∧ x.id ∉ deletedLabelIds)) ∧
    (∀ r ∈ (remoteRows.map (rowToLocalLabel nowMs)).filter
        (fun z => !(deletedLabelIds.contains z.id)),
      r ∈ mergeLabels deletedLabelIds localItems remoteRows nowMs ∧
        ∀ l ∈ localItems, l.id = r.id → l ≠ r →
          l ∉ mergeLabels deletedLabelIds localItems remoteRows nowMs) ∧
    (∀ l ∈ localItems,
      (∀ r ∈ (remoteRows.map (rowToLocalLabel nowMs)).filter
          (fun z => !(deletedLabelIds.contains z.id)), r.id ≠ l.id) →
      l ∈ mergeLabels deletedLabelIds localItems remoteRows nowMs) := by
  have hkeys : keysOf (localItems.map (fun l => (l.id, l)))
      = localItems.map LocalLabel.id := by
    simp only [keysOf, List.map_map]
    rfl
  have hbase : mapFromPairs (localItems.map (fun l => (l.id, l)))
      = localItems.map (fun l => (l.id, l)) :=
    mapFromPairs_eq_self _ (by rw [hkeys]; exact hnd)
  have hbasekeyed : ∀ q ∈ mapFromPairs (localItems.map (fun l => (l.id, l))),
      q.1 = q.2.id := by
    rw [hbase]
    intro q hq
    obtain ⟨l, _, hle⟩ := List.mem_map.mp hq
    rw [← hle]
  refine ⟨?_, ?_, ?_⟩
  · intro x hx
    unfold mergeLabels at hx
    obtain ⟨p, hp, hpx⟩ := List.mem_map.mp hx
    rcases mem_foldl_upsertEntry LocalLabel.id _ _ hp with h1 | ⟨rl, hrl, he⟩
    · rw [hbase] at h1
      obtain ⟨l, hl, hle⟩ := List.mem_map.mp h1
      left
      rw [← hpx, ← hle]
      exact hl
    · right
      subst he
      simp only at hpx
      subst hpx
      obtain ⟨hmem, hflt⟩ := List.mem_filter.mp hrl
      refine ⟨hmem, ?_⟩
      simpa using hflt
  · intro r hr
    have hmm : (r.id, r) ∈ ((remoteRows.map (rowToLocalLabel nowMs)).filter
        (fun z => !(deletedLabelIds.contains z.id))).foldl
        (fun m rl => upsertEntry rl.id rl m)
        (mapFromPairs (localItems.map (fun l => (l.id, l)))) :=
      foldl_upsertEntry_mem_of_nodup LocalLabel.id _ _ hr hrd
    constructor
    · unfold mergeLabels
      exact List.mem_map.mpr ⟨(r.id, r), hmm, rfl⟩
    · intro l hl hid hne hcontra
      unfold mergeLabels at hcontra
      obtain ⟨p, hp, hpl⟩ := List.mem_map.mp hcontra
      have hpkey := keyfst_foldl_upsertEntry LocalLabel.id _ _ hbasekeyed p hp
      have hpe : p = (l.id, l) := by
        obtain ⟨a, b⟩ := p
        simp only at hpl hpkey
        subst hpl
        rw [hpkey]
      have hnodup : (keysOf (((remoteRows.map (rowToLocalLabel nowMs)).filter
          (fun z => !(deletedLabelIds.contains z.id))).foldl
          (fun m rl => upsertEntry rl.id rl m)
          (mapFromPairs (localItems.map (fun l => (l.id, l)))))).Nodup := by
        refine nodup_keysOf_foldl_upsertEntry LocalLabel.id _ _ ?_
        rw [hbase, hkeys]
        exact hnd
      have heq : (l.id, l) = (r.id, r) :=
        keyed_nodup_eq hnodup (hpe ▸ hp) hmm (by simpa using hid)
      exact hne (congrArg Prod.snd heq)
  · intro l hl hnor
    unfold mergeLabels
    refine List.mem_map.mpr ⟨(l.id, l), ?_, rfl⟩
    refine mem_foldl_upsertEntry_of_mem LocalLabel.id _ _ ?_ ?_
    · rw [hbase]
      exact List.mem_map.mpr ⟨l, hl, rfl⟩
    · intro r hr he
      exact hnor r hr (by simpa using he)

theorem labelPull_tombstone_witness :
    (⟨"loc1", "Mine", "#fff", false, 0⟩ : LocalLabel) ∈
      mergeLabels ["d1"] [⟨"loc1", "Mine", "#fff", false, 0⟩]
        [⟨some "d1", "rid", "Zombie", "#000", none, none⟩] 0 :=
  (labelPull_tombstone ["d1"] _ _ 0 (by decide) (by decide)).2.2 _
    (List.mem_singleton_self _) (by decide)

/-- C5: when the one-shot force-push flag is set at the start of a pass, the
pull phase is skipped entirely — no remote data modifies the local state —
and the pass consumes the flag. -/
theorem forcePush_skips_pull (nowMs : Int) (sSup lSup : Nat → String)
    (meta : SyncMeta) (st : AppState) (rp : RemotePull)
    (hf : meta.forcePushOnce = true)
    (hs : ∀ s ∈ st.sessions, s.clientId ≠ "")
    (hl : ∀ l ∈ st.labels, l.id ≠ "") :
    (fullSync nowMs sSup lSup meta st rp).1 = st ∧
    (fullSync nowMs sSup lSup meta st rp).2.forcePushOnce = false := by
  have hens : ensureClientIds sSup lSup st = st := by
    unfold ensureClientIds
    rw [mapIdx_id_of_eq st.sessions _ (fun s hsm i => by simp [hs s hsm]),
      mapIdx_id_of_eq st.labels _ (fun l hlm i => by simp [hl l hlm])]
  by_cases hd : rp.deleteOk <;> by_cases he : meta.deletedLabelIds.isEmpty <;>
    simp [fullSync, hens, hf, hd, he]

theorem forcePush_skips_pull_witness :
    (fullSync 777 (fun _ => "s") (fun _ => "l") ⟨0, true, ["x"]⟩ defaultAppState
        ⟨some ⟨some "Bob", some 3, some "ocean", some false, some 2, some "fire",
            some (1/2), some 99, some 98, some "Mango", some 7, some [("Mango", 4)]⟩,
          some [⟨some "r1", "rid", "L", "#123", some true, some 5⟩],
          some [⟨"c9", some 1, some 2, 70, some "x", some "timer", some "garden"⟩],
          true⟩).2.forcePushOnce = false :=
  (forcePush_skips_pull 777 (fun _ => "s") (fun _ => "l") ⟨0, true, ["x"]⟩ defaultAppState
    ⟨some ⟨some "Bob", some 3, some "ocean", some false, some 2, some "fire",
        some (1/2), some 99, some 98, some "Mango", some 7, some [("Mango", 4)]⟩,
      some [⟨some "r1", "rid", "L", "#123", some true, some 5⟩],
      some [⟨"c9", some 1, some 2, 70, some "x", some "timer", some "garden"⟩],
      true⟩ rfl (by decide) (by decide)).2

/-- C6 counterexample: with a remote profile row whose `display_name` is the
present-but-empty string, `applyProfileRow` keeps the local name "Alice" —
an empty remote value does not overwrite the local field, contradicting the
unconditional remote-wins claim. -/
theorem applyProfileRow_empty_not_overwriting :
    (applyProfileRow
      ⟨some "", none, none, none, none, none, none, none, none, none, none, none⟩
      ({ defaultAppState with profile :=
          ⟨"Alice", 10, "midnight", true, 6, "off", 2/5⟩ })).profile.name = "Alice" := rfl

/-- C6 (amended): `applyProfileRow` overwrites conditionally, not
unconditionally: a numeric field overwrites exactly when the remote value is
non-null, otherwise the local value is kept; a string field overwrites
exactly when the remote value is present and non-empty, otherwise the local
value (or its default when the local value is itself empty) is kept;
`stopwatchCapOn` is set to `true` unless the remote value is exactly `false`;
a null `fruit_collection` leaves the collection untouched. -/
theorem applyProfileRow_conditional_overwrite (r : ProfileRow) (st : AppState) :
    (∀ s : String, r.display_name = some s → s ≠ "" →
      (applyProfileRow r st).profile.name = s) ∧
    ((r.display_name = none ∨ r.display_name = some "") →
      (applyProfileRow r st).profile.name = jsOrStr st.profile.name "Student") ∧
    (∀ v : Int, r.island_xp_sec = some v → (applyProfileRow r st).island.xpSec = v) ∧
    (r.island_xp_sec = none → (applyProfileRow r st).island.xpSec = st.island.xpSec) ∧
    (∀ v : Int, r.garden_growth_sec = some v →
      (applyProfileRow r st).garden.growthSec = v) ∧
    (r.garden_growth_sec = none →
      (applyProfileRow r st).garden.growthSec = st.garden.growthSec) ∧
    (∀ s : String, r.garden_tree_type = some s → s ≠ "" →
      (applyProfileRow r st).garden.treeType = s) ∧
    ((r.garden_tree_type = none ∨ r.garden_tree_type = some "") →
      (applyProfileRow r st).garden.treeType = jsOrStr st.garden.treeType "Apple") ∧
    ((applyProfileRow r st).profile.stopwatchCapOn = (r.stopwatch_cap_on != some false)) ∧
    (r.fruit_collection = none →
      (applyProfileRow r st).fruitCollection = st.fruitCollection) := by
  refine ⟨?_, ?_, ?_, ?_, ?_, ?_, ?_, ?_, ?_, ?_⟩
  · intro s hsome hne
    simp [applyProfileRow, jsOrOptStr, hsome, hne]
  · rintro (h | h) <;> simp [applyProfileRow, jsOrOptStr, h]
  · intro v h
    simp [applyProfileRow, h]
  · intro h
    simp [applyProfileRow, h]
  · intro v h
    simp [applyProfileRow, h]
  · intro h
    simp [applyProfileRow, h]
  · intro s hsome hne
    simp [applyProfileRow, jsOrOptStr, hsome, hne]
  · rintro (h | h) <;> simp [applyProfileRow, jsOrOptStr, h]
  · simp [applyProfileRow]
  · intro h
    simp [applyProfileRow, h]

theorem applyProfileRow_conditional_overwrite_witness :
    (applyProfileRow
      ⟨none, none, none, none, none, none, none, some 42, none, none, none, none⟩
      defaultAppState).island.xpSec = 42 :=
  (applyProfileRow_conditional_overwrite
    ⟨none, none, none, none, none, none, none, some 42, none, none, none, none⟩
    defaultAppState).2.2.1 42 rfl

theorem clamp_idem (n a b : ℚ) (hab : a ≤ b) : clamp (clamp n a b) a b = clamp n a b := by
  have h1 : a ≤ clamp n a b := le_max_left _ _
  have h2 : clamp n a b ≤ b := max_le hab (min_le_left _ _)
  rw [show clamp (clamp n a b) a b = max a (min b (clamp n a b)) from rfl,
    min_eq_right h2, max_eq_right h1]

theorem clamp01_idem (n : ℚ) : clamp01 (clamp01 n) = clamp01 n :=
  clamp_idem n 0 1 (by norm_num)

theorem jsSlice_idem (s : String) (n : Nat) : jsSlice (jsSlice s n) n = jsSlice s n := by
  unfold jsSlice
  rw [show (String.mk (s.data.take n)).data = s.data.take n from rfl,
    List.take_take, Nat.min_self]

theorem dropWhile_of_forall_neg {α : Type} {p : α → Bool} {l : List α}
    (h : ∀ c ∈ l, p c = false) : l.dropWhile p = l := by
  cases l with
  | nil => rfl
  | cons a t => rw [List.dropWhile_cons_of_neg (by simp [h a (List.mem_cons_self a t)])]

theorem jsTrim_of_no_ws {s : String} (h : ∀ c ∈ s.data, wsChar c = false) :
    jsTrim s = s := by
  unfold jsTrim
  rw [dropWhile_of_forall_neg h, List.rdropWhile_eq_self_iff.mpr ?_]
  intro hl hp
  have hfalse := h _ (List.getLast_mem hl)
  rw [hfalse] at hp
  exact Bool.false_ne_true hp

theorem dropWhile_trimmed_fix (p : Char → Bool) (l : List Char) :
    ((l.dropWhile p).rdropWhile p).dropWhile p = (l.dropWhile p).rdropWhile p := by
  rw [List.dropWhile_eq_self_iff]
  intro hl
  have hpre := List.rdropWhile_prefix p (l.dropWhile p)
  have hlen : 0 < (l.dropWhile p).length := Nat.lt_of_lt_of_le hl hpre.length_le
  have hne : l.dropWhile p ≠ [] := by
    intro hcon
    rw [hcon] at hlen
    simp at hlen
  have hget : ((l.dropWhile p).rdropWhile p).get ⟨0, hl⟩ = (l.dropWhile p).head hne := by
    simp only [List.get_eq_getElem]
    rw [hpre.getElem hl]
    exact (List.head_eq_getElem _ hne).symm
  rw [hget]
  simp [List.head_dropWhile_not p l hne]

theorem jsTrim_idem (s : String) : jsTrim (jsTrim s) = jsTrim s := by
  unfold jsTrim
  rw [show (String.mk ((s.data.dropWhile wsChar).rdropWhile wsChar)).data
      = (s.data.dropWhile wsChar).rdropWhile wsChar from rfl]
  rw [dropWhile_trimmed_fix, List.rdropWhile_idempotent]

theorem idChar_not_ws {c : Char} (h : idChar c = true) : wsChar c = false := by
  by_contra hcon
  have hws : c.isWhitespace = true := by
    revert hcon
    unfold wsChar
    cases c.isWhitespace <;> simp
  unfold Char.isWhitespace at hws
  simp only [Bool.or_eq_true, decide_eq_true_eq] at hws
  rcases hws with ((h1 | h1) | h1) | h1 <;> subst h1 <;> exact absurd h (by decide)

theorem tryCapture_chars (pat s cap : List Char) (h : tryCapture pat s = some cap) :
    ∀ c ∈ cap, idChar c = true := by
  intro c hc
  unfold tryCapture at h
  rcases hdp : dropPat pat s with _ | rest
  all_goals rw [hdp] at h
  · exact Option.noConfusion h
  · replace h : (if 6 ≤ (rest.takeWhile idChar).length then some (rest.takeWhile idChar)
        else none) = some cap := h
    by_cases hlen : 6 ≤ (rest.takeWhile idChar).length
    · rw [if_pos hlen] at h
      injection h with h
      subst h
      exact List.mem_takeWhile_imp hc
    · rw [if_neg hlen] at h
      exact Option.noConfusion h

theorem tryCaptureV_chars (s cap : List Char) (h : tryCaptureV s = some cap) :
    ∀ c ∈ cap, idChar c = true := by
  unfold tryCaptureV at h
  rcases s with _ | ⟨c, rest⟩
  · exact Option.noConfusion h
  · replace h : (if c = '?' ∨ c = '&' then tryCapture ['v', '='] rest else none)
        = some cap := h
    by_cases hcond : c = '?' ∨ c = '&'
    · rw [if_pos hcond] at h
      exact tryCapture_chars _ _ _ h
    · rw [if_neg hcond] at h
      exact Option.noConfusion h

theorem scanList_prop (f : List Char → Option (List Char)) (P : List Char → Prop)
    (hf : ∀ s cap, f s = some cap → P cap) :
    ∀ (s cap : List Char), scanList f s = some cap → P cap := by
  intro s
  induction s with
  | nil =>
    intro cap h
    exact hf [] cap h
  | cons c rest ih =>
    intro cap h
    unfold scanList at h
    rcases hc : f (c :: rest) with _ | r
    all_goals rw [hc] at h
    · exact ih cap h
    · replace h : some r = some cap := h
      injection h with h
      subst h
      exact hf _ _ hc

theorem extractVideoId_chars (u : String) :
    ∀ c ∈ (extractVideoId u).data, idChar c = true := by
  unfold extractVideoId
  rcases h1 : scanList (tryCapture "/embed/".data) u.data with _ | cap1
  · rcases h2 : scanList tryCaptureV u.data with _ | cap2
    · rcases h3 : scanList (tryCapture "youtu.be/".data) u.data with _ | cap3
      · simp
      · exact scanList_prop _ _ (fun s cap h => tryCapture_chars _ s cap h) _ _ h3
    · exact scanList_prop _ _ (fun s cap h => tryCaptureV_chars s cap h) _ _ h2
  · exact scanList_prop _ _ (fun s cap h => tryCapture_chars _ s cap h) _ _ h1

theorem loadLofiVid_fix (ab : Option BAudio) :
    jsTrim (loadLofiVid ab) = loadLofiVid ab ∧ loadLofiVid ab ≠ "" := by
  unfold loadLofiVid
  by_cases h1 : jsTrim ((ab.bind BAudio.lofiVideoId).getD "") = ""
  · rw [if_pos h1]
    by_cases h2 : extractVideoId (jsTrim ((ab.bind BAudio.lofiEmbedUrl).getD "")) = ""
    · rw [if_pos h2]
      exact ⟨by decide, by decide⟩
    · rw [if_neg h2]
      refine ⟨jsTrim_of_no_ws ?_, h2⟩
      intro c hc
      exact idChar_not_ws (extractVideoId_chars _ c hc)
  · rw [if_neg h1]
    exact ⟨jsTrim_idem _, h1⟩

theorem themeNorm_mem (s : String) : allowedThemes.contains (themeNorm s) = true := by
  unfold themeNorm
  split
  next h => exact h
  next => decide

theorem themeNorm_of_contains {t : String} (ht : allowedThemes.contains t = true) :
    themeNorm t = t := by
  have htm : t ∈ allowedThemes := by simpa using ht
  have hne : t ≠ "" := by
    have hall : ∀ x ∈ allowedThemes, x ≠ "" := by decide
    exact hall t htm
  unfold themeNorm
  rw [show jsOrStr t "midnight" = t from by simp [jsOrStr, hne]]
  rw [if_pos ht]

theorem themeNorm_idem (s : String) : themeNorm (themeNorm s) = themeNorm s :=
  themeNorm_of_contains (themeNorm_mem s)

theorem viewNorm_idem (s : String) : viewNorm (viewNorm s) = viewNorm s := by
  unfold viewNorm
  by_cases h : s = "list" <;> simp [h]

theorem sortNorm_idem (s : String) : sortNorm (sortNorm s) = sortNorm s := by
  unfold sortNorm
  by_cases h : s = "date" <;> simp [h]

theorem normalizeRewardMode_fix (x : String) :
    normalizeRewardMode (jsOrStr (normalizeRewardMode x) "island") = normalizeRewardMode x := by
  unfold normalizeRewardMode jsOrStr
  by_cases h : x = "garden" <;> simp [h]

theorem mapIdx_comp_map {α β γ : Type} :
    ∀ (l : List α) (g : α → β) (f : Nat → β → γ),
      (l.map g).mapIdx f = l.mapIdx (fun i x => f i (g x)) := by
  intro l
  induction l with
  | nil => intro g f; rfl
  | cons a as ih =>
    intro g f
    rw [List.map_cons, List.mapIdx_cons, List.mapIdx_cons, ih]

theorem mem_mapIdx_ex {α β : Type} :
    ∀ (l : List α) (f : Nat → α → β) {x : β},
      x ∈ l.mapIdx f → ∃ i y, y ∈ l ∧ x = f i y := by
  intro l
  induction l with
  | nil =>
    intro f x h
    simp [List.mapIdx_nil] at h
  | cons a as ih =>
    intro f x h
    rw [List.mapIdx_cons] at h
    rcases List.mem_cons.mp h with h1 | h1
    · exact ⟨0, a, List.mem_cons_self _ _, h1⟩
    · obtain ⟨i, y, hy, he⟩ := ih _ h1
      exact ⟨i + 1, y, List.mem_cons_of_mem _ hy, he⟩

theorem pairFoldl_cons_skip {α : Type} (b : String × α) :
    ∀ (L m : List (String × α)), (∀ q ∈ L, q.1 ≠ b.1) →
      L.foldl (fun acc p => upsertEntry p.1 p.2 acc) (b :: m)
        = b :: L.foldl (fun acc p => upsertEntry p.1 p.2 acc) m := by
  obtain ⟨bk, bv⟩ := b
  intro L
  induction L with
  | nil =>
    intro m _
    rfl
  | cons p ps ih =>
    intro m h
    rw [List.foldl_cons, List.foldl_cons]
    have hne : p.1 ≠ bk := h p (List.mem_cons_self _ _)
    have hstep : upsertEntry p.1 p.2 ((bk, bv) :: m) = (bk, bv) :: upsertEntry p.1 p.2 m := by
      simp only [upsertEntry]
      rw [if_neg (fun he => hne he.symm)]
    rw [hstep]
    exact ih _ (fun q hq => h q (List.mem_cons_of_mem _ hq))

theorem pairFoldl_overwrite {α : Type} :
    ∀ (P F : List (String × α)), keysOf F = keysOf P → (keysOf P).Nodup →
      F.foldl (fun acc p => upsertEntry p.1 p.2 acc) P = F := by
  intro P
  induction P with
  | nil =>
    intro F hF _
    have hFnil : F = [] := by
      cases F with
      | nil => rfl
      | cons b F' => exact absurd hF (by simp [keysOf])
    subst hFnil
    rfl
  | cons a P' ih =>
    intro F hF hnd
    cases F with
    | nil => exact absurd hF (by simp [keysOf])
    | cons b F' =>
      rw [keysOf_cons, keysOf_cons] at hF
      injection hF with h1 h2
      rw [keysOf_cons] at hnd
      obtain ⟨hna, hnd'⟩ := List.nodup_cons.mp hnd
      rw [List.foldl_cons]
      have hstep : upsertEntry b.1 b.2 (a :: P') = b :: P' := by
        obtain ⟨ak, av⟩ := a
        obtain ⟨bk, bv⟩ := b
        simp only at h1
        simp only [upsertEntry]
        rw [if_pos h1.symm]
      rw [hstep]
      have hskip : ∀ q ∈ F', q.1 ≠ b.1 := by
        intro q hq he
        apply hna
        rw [← h1, ← he, ← h2]
        exact mem_keysOf.mpr ⟨q, hq, rfl⟩
      rw [pairFoldl_cons_skip b F' P' hskip]
      rw [ih F' h2 hnd']

theorem pairFoldl_keys_extend {α : Type} :
    ∀ (qs m : List (String × α)),
      ∃ ex, keysOf (qs.foldl (fun acc p => upsertEntry p.1 p.2 acc) m) = keysOf m ++ ex
        ∧ ∀ k ∈ ex, k ∉ keysOf m := by
  intro qs
  induction qs with
  | nil =>
    intro m
    exact ⟨[], by simp, by simp⟩
  | cons p ps ih =>
    intro m
    rw [List.foldl_cons]
    by_cases hk : p.1 ∈ keysOf m
    · obtain ⟨ex, he, hp⟩ := ih (upsertEntry p.1 p.2 m)
      rw [keysOf_upsertEntry_of_mem p.2 hk] at he hp
      exact ⟨ex, he, hp⟩
    · obtain ⟨ex, he, hp⟩ := ih (upsertEntry p.1 p.2 m)
      have hku : keysOf (upsertEntry p.1 p.2 m) = keysOf m ++ [p.1] := by
        rw [upsertEntry_of_not_mem p.2 hk, keysOf_append]
        rfl
      refine ⟨[p.1] ++ ex, ?_, ?_⟩
      · rw [he, hku, List.append_assoc]
      · intro k hkk
        rcases List.mem_append.mp hkk with h1 | h1
        · rw [List.mem_singleton] at h1
          subst h1
          exact hk
        · intro hin
          exact hp k h1 (by rw [hku]; exact List.mem_append_left _ hin)

theorem nodup_keysOf_pairFoldl {α : Type} :
    ∀ (qs m : List (String × α)), (keysOf m).Nodup →
      (keysOf (qs.foldl (fun acc p => upsertEntry p.1 p.2 acc) m)).Nodup := by
  intro qs
  induction qs with
  | nil => exact fun m h => h
  | cons p ps ih => exact fun m h => ih _ (nodup_keysOf_upsertEntry _ _ h)

theorem nodup_keysOf_mapFromPairs {α : Type} (ps : List (String × α)) :
    (keysOf (mapFromPairs ps)).Nodup := by
  unfold mapFromPairs
  exact nodup_keysOf_pairFoldl ps [] (by simp [keysOf])

theorem mapFromPairs_absorb {α : Type} (ps qs : List (String × α))
    (hps : (keysOf ps).Nodup) :
    mapFromPairs (ps ++ mapFromPairs (ps ++ qs)) = mapFromPairs (ps ++ qs) := by
  have hP : mapFromPairs ps = ps := mapFromPairs_eq_self ps hps
  have hsplit : ∀ (rs : List (String × α)),
      mapFromPairs (ps ++ rs) = rs.foldl (fun acc p => upsertEntry p.1 p.2 acc) ps := by
    intro rs
    unfold mapFromPairs
    rw [List.foldl_append]
    congr 1
  obtain ⟨ex, hke, hdisj⟩ := pairFoldl_keys_extend qs ps
  have hkeF : keysOf (mapFromPairs (ps ++ qs)) = keysOf ps ++ ex := by
    rw [hsplit]
    exact hke
  have hFnodup : (keysOf (mapFromPairs (ps ++ qs))).Nodup := nodup_keysOf_mapFromPairs _
  set F := mapFromPairs (ps ++ qs) with hFdef
  have hlen : (keysOf ps).length = ps.length := by simp [keysOf]
  have htake : keysOf (F.take ps.length) = keysOf ps := by
    have hmt : keysOf (F.take ps.length) = (keysOf F).take ps.length := by
      simp [keysOf, List.map_take]
    rw [hmt, hkeF, ← hlen, List.take_left]
  have hdrop : keysOf (F.drop ps.length) = ex := by
    have hmd : keysOf (F.drop ps.length) = (keysOf F).drop ps.length := by
      simp [keysOf, List.map_drop]
    rw [hmd, hkeF, ← hlen, List.drop_left]
  rw [hsplit]
  conv_lhs => rw [← List.take_append_drop ps.length F]
  rw [List.foldl_append]
  rw [pairFoldl_overwrite ps (F.take ps.length) htake hps]
  rw [foldl_upsertEntry_append _ _ (by rw [List.take_append_drop]; exact hFnodup)]
  exact List.take_append_drop _ _

theorem filterMap_id_map_some {α : Type} (l : List α) : (l.map some).filterMap id = l := by
  induction l with
  | nil => rfl
  | cons a as ih => simp [List.filterMap_cons, ih]

theorem loadTask_fix (nowMs : ℚ) (uidS : Nat → String) (i : Nat) (t : LTask)
    (h1 : t.id ≠ "") (h2 : jsSlice t.text 80 = t.text) (h3 : t.createdTs ≠ 0) :
    loadTask nowMs uidS i ⟨some t.id, some t.text, some t.done, some t.createdTs⟩ = t := by
  have hred : loadTask nowMs uidS i ⟨some t.id, some t.text, some t.done, some t.createdTs⟩
      = ⟨if t.id = "" then uidS i else t.id, jsSlice t.text 80, t.done,
          if t.createdTs = 0 then nowMs else t.createdTs⟩ := rfl
  rw [hred, if_neg h1, h2, if_neg h3]

theorem loadLofiVid_of_fixed {ab : Option BAudio} {v : String}
    (hv : ab.bind BAudio.lofiVideoId = some v) (hfix : jsTrim v = v) (hne : v ≠ "") :
    loadLofiVid ab = v := by
  unfold loadLofiVid
  rw [hv]
  simp only [Option.getD_some]
  rw [hfix, if_neg hne]

theorem loadChannel_vol_shape (ch : Option BAmbientCh) (dvol : ℚ) :
    ∃ x, (loadChannel ch dvol).vol = clamp01 x := by
  cases ch with
  | none => exact ⟨dvol, rfl⟩
  | some c => exact ⟨c.vol.getD dvol, rfl⟩

attribute [ext] LoadedState LProfile LAudio LAmbient LAmbientCh LPomodoro LGarden LLabels LHabits SessAmb LTask

theorem loadMerge_stateToBlob_fix (st : LoadedState) (nowMs currentYear : ℚ)
    (uidS : Nat → String)
    (hcapH : clamp st.profile.stopwatchCapHours 1 24 = st.profile.stopwatchCapHours)
    (htheme : themeNorm st.profile.theme = st.profile.theme)
    (hwv : normalizeRewardMode (jsOrStr st.worldView "island") = st.worldView)
    (htasks : ∀ t ∈ st.tasks, t.id ≠ "" ∧ jsSlice t.text 80 = t.text ∧ t.createdTs ≠ 0)
    (hmaster : clamp01 st.audio.master = st.audio.master)
    (hfire : clamp01 st.audio.ambient.fire.vol = st.audio.ambient.fire.vol)
    (hwind : clamp01 st.audio.ambient.wind.vol = st.audio.ambient.wind.vol)
    (hsea : clamp01 st.audio.ambient.sea.vol = st.audio.ambient.sea.vol)
    (hnature : clamp01 st.audio.ambient.nature.vol = st.audio.ambient.nature.vol)
    (hvid : jsTrim st.audio.lofiVideoId = st.audio.lofiVideoId)
    (hvidne : st.audio.lofiVideoId ≠ "")
    (hurl : st.audio.lofiEmbedUrl = lofiUrlOf st.audio.lofiVideoId)
    (hplay : st.audio.isPlaying = false)
    (hbg : clamp01 st.audio.videoBgOpacity = st.audio.videoBgOpacity)
    (hov : clamp01 st.audio.videoOverlayOpacity = st.audio.videoOverlayOpacity)
    (hyt : clamp st.audio.ytVolume 0 100 = st.audio.ytVolume)
    (hview : viewNorm st.labels.view = st.labels.view)
    (hsort2 : sortNorm st.labels.sort = st.labels.sort)
    (hfruit : mapFromPairs (defaultFruitCollectionQ ++ st.fruitCollection)
      = st.fruitCollection) :
    loadMerge nowMs currentYear uidS (stateToBlob st) = st := by
  have hlv : loadLofiVid (stateToBlob st).audio = st.audio.lofiVideoId :=
    loadLofiVid_of_fixed rfl hvid hvidne
  have htasks_eq :
      (((stateToBlob st).tasks.getD []).filterMap id).mapIdx (loadTask nowMs uidS)
        = st.tasks := by
    have hb : (stateToBlob st).tasks = some ((st.tasks.map (fun t =>
        (⟨some t.id, some t.text, some t.done, some t.createdTs⟩ : BTask))).map some) := by
      rw [List.map_map]
      rfl
    rw [hb, Option.getD_some, filterMap_id_map_some, mapIdx_comp_map]
    refine mapIdx_id_of_eq _ _ ?_
    intro t ht i
    obtain ⟨h1, h2, h3⟩ := htasks t ht
    exact loadTask_fix nowMs uidS i t h1 h2 h3
  have hfr : mapFromPairs (defaultFruitCollectionQ
        ++ ((stateToBlob st).fruitCollection.getD [])) = st.fruitCollection := by
    rw [show (stateToBlob st).fruitCollection = some st.fruitCollection from rfl,
      Option.getD_some, hfruit]
  apply LoadedState.ext
  · apply LProfile.ext
    · simp [loadMerge, stateToBlob]
    · simp [loadMerge, stateToBlob]
    · simp [loadMerge, stateToBlob, htheme]
    · simp [loadMerge, stateToBlob]
    · simp [loadMerge, stateToBlob]
    · simp [loadMerge, stateToBlob, hcapH]
    · simp [loadMerge, stateToBlob]
    · simp [loadMerge, stateToBlob]
  · simp [loadMerge, stateToBlob, hwv]
  · exact htasks_eq
  · apply LAudio.ext
    · simp [loadMerge, stateToBlob, hmaster]
    · apply LAmbient.ext
      · apply LAmbientCh.ext
        · simp [loadMerge, stateToBlob, loadChannel]
        · simp [loadMerge, stateToBlob, loadChannel, hfire]
      · apply LAmbientCh.ext
        · simp [loadMerge, stateToBlob, loadChannel]
        · simp [loadMerge, stateToBlob, loadChannel, hwind]
      · apply LAmbientCh.ext
        · simp [loadMerge, stateToBlob, loadChannel]
        · simp [loadMerge, stateToBlob, loadChannel, hsea]
      · apply LAmbientCh.ext
        · simp [loadMerge, stateToBlob, loadChannel]
        · simp [loadMerge, stateToBlob, loadChannel, hnature]
    · simpa [loadMerge] using hlv
    · simp [loadMerge]
      rw [hlv, ← hurl]
    · simp [loadMerge, stateToBlob]
    · simp [loadMerge, stateToBlob, hbg]
    · simp [loadMerge, stateToBlob, hov]
    · simp [loadMerge, stateToBlob, hyt]
    · simp [loadMerge, hplay]
  · apply LPomodoro.ext <;> simp [loadMerge, stateToBlob]
  · simp [loadMerge, stateToBlob]
  · simp [loadMerge, stateToBlob]
  · apply LGarden.ext <;> simp [loadMerge, stateToBlob]
  · simpa [loadMerge] using hfr
  · apply LLabels.ext
    · simp [loadMerge, stateToBlob]
    · simp [loadMerge, stateToBlob, hview]
    · simp [loadMerge, stateToBlob, hsort2]
  · apply LHabits.ext <;> simp [loadMerge, stateToBlob]

/-- C8: the load-time defaults-merge is idempotent — merging defaults with
the result of a previous defaults-merge (re-read as a blob, as
`JSON.parse(JSON.stringify(state))` produces) reproduces that result
unchanged, for every input blob, independent of the id generator used on the
second pass — and loading a missing or unparsable blob yields the default
state (totally, without throwing). -/
theorem loadState_defaults_merge_idempotent (b : Blob) (nowMs currentYear : ℚ)
    (uidS uidS' : Nat → String) (hnow : nowMs ≠ 0) (huid : ∀ n, uidS' n ≠ "") :
    loadMerge nowMs currentYear uidS (stateToBlob (loadMerge nowMs currentYear uidS' b))
      = loadMerge nowMs currentYear uidS' b ∧
    loadState none nowMs currentYear uidS = defaultLoadedState currentYear := by
  refine ⟨?_, rfl⟩
  apply loadMerge_stateToBlob_fix
  · exact clamp_idem _ 1 24 (by norm_num)
  · exact themeNorm_idem _
  · exact normalizeRewardMode_fix _
  · intro t ht
    obtain ⟨i, y, hy, he⟩ :=
      mem_mapIdx_ex ((b.tasks.getD []).filterMap id) (loadTask nowMs uidS') ht
    subst he
    obtain ⟨yid, ytext, ydone, ycts⟩ := y
    refine ⟨?_, jsSlice_idem _ _, ?_⟩
    · cases yid with
      | none => exact huid i
      | some s =>
        show (if s = "" then uidS' i else s) ≠ ""
        by_cases hs : s = ""
        · rw [if_pos hs]
          exact huid i
        · rw [if_neg hs]
          exact hs
    · cases ycts with
      | none => exact hnow
      | some q =>
        show (if q = 0 then nowMs else q) ≠ 0
        by_cases hq : q = 0
        · rw [if_pos hq]
          exact hnow
        · rw [if_neg hq]
          exact hq
  · exact clamp01_idem _
  · obtain ⟨x, hx⟩ :=
      loadChannel_vol_shape ((b.audio.bind BAudio.ambient).bind BAmbient.fire) (9/20)
    show clamp01 ((loadChannel ((b.audio.bind BAudio.ambient).bind BAmbient.fire) (9/20)).vol)
      = (loadChannel ((b.audio.bind BAudio.ambient).bind BAmbient.fire) (9/20)).vol
    rw [hx]
    exact clamp01_idem x
  · obtain ⟨x, hx⟩ :=
      loadChannel_vol_shape ((b.audio.bind BAudio.ambient).bind BAmbient.wind) (7/20)
    show clamp01 ((loadChannel ((b.audio.bind BAudio.ambient).bind BAmbient.wind) (7/20)).vol)
      = (loadChannel ((b.audio.bind BAudio.ambient).bind BAmbient.wind) (7/20)).vol
    rw [hx]
    exact clamp01_idem x
  · obtain ⟨x, hx⟩ :=
      loadChannel_vol_shape ((b.audio.bind BAudio.ambient).bind BAmbient.sea) (7/20)
    show clamp01 ((loadChannel ((b.audio.bind BAudio.ambient).bind BAmbient.sea) (7/20)).vol)
      = (loadChannel ((b.audio.bind BAudio.ambient).bind BAmbient.sea) (7/20)).vol
    rw [hx]
    exact clamp01_idem x
  · obtain ⟨x, hx⟩ :=
      loadChannel_vol_shape ((b.audio.bind BAudio.ambient).bind BAmbient.nature) (7/20)
    show clamp01 ((loadChannel ((b.audio.bind BAudio.ambient).bind BAmbient.nature) (7/20)).vol)
      = (loadChannel ((b.audio.bind BAudio.ambient).bind BAmbient.nature) (7/20)).vol
    rw [hx]
    exact clamp01_idem x
  · exact (loadLofiVid_fix b.audio).1
  · exact (loadLofiVid_fix b.audio).2
  · rfl
  · rfl
  · exact clamp01_idem _
  · exact clamp01_idem _
  · exact clamp_idem _ 0 100 (by norm_num)
  · exact viewNorm_idem _
  · exact sortNorm_idem _
  · show mapFromPairs (defaultFruitCollectionQ
        ++ mapFromPairs (defaultFruitCollectionQ ++ b.fruitCollection.getD []))
      = mapFromPairs (defaultFruitCollectionQ ++ b.fruitCollection.getD [])
    exact mapFromPairs_absorb _ _ (by decide)

theorem loadState_defaults_merge_idempotent_witness :
    loadState none 1000 2026 (fun _ => "id_0") = defaultLoadedState 2026 :=
  (loadState_defaults_merge_idempotent
    ⟨none, none, none, none, none, none, none, none, none, none, none⟩ 1000 2026
    (fun _ => "id_0") (fun _ => "id_0") (by norm_num)
    (fun _ => by show "id_0" ≠ ""; decide)).2

end Bloomora
